import Mathlib

/-!
# NetraVision: the single-producer/single-consumer ring buffer

A shallow embedding of `src/NetraVision/spscbuffer.h` (class template
`SPSCBuffer<T>`), used sequentially: each member function is a pure function of
the buffer state.

* `unsigned int` / `uint32_t` arithmetic is `Nat` arithmetic reduced modulo
  `2 ^ 32`; `size_t` arithmetic is reduced modulo `2 ^ 64`.
* The backing store `buffer_` comes from `std::malloc`, so a slot holds either
  a live object (`some x`) or no object (`none`).
* Calls of user-supplied function objects and of destructors / `delete` are
  recorded as a list of `Event`s returned by the member function.
* A member function that would read a slot holding no live object (undefined
  behaviour in C++) returns `none`.
-/

namespace NetraVision

/-- Reduction of a natural number to the range of `unsigned int` / `uint32_t`. -/
def u32 (n : Nat) : Nat := n % 2 ^ 32

/-- Reduction of a natural number to the range of `size_t` (64-bit target). -/
def usize (n : Nat) : Nat := n % 2 ^ 64

/-- Compile-time facts about the element type `T` that the member functions
branch on: `std::is_pointer<T>::value` and, for a pointer type, the test
`ptr != nullptr` (as its negation `isNull`). -/
structure ElemTraits (T : Type) where
  is_pointer : Bool
  isNull : T → Bool

/-- Observable calls made by the buffer on an element.
* `callback x`: `callbackFunctionToCallWhilePop(buffer_[i])` with `buffer_[i] = x`;
* `deletePtr x`: `delete ptr` with `ptr = x`;
* `destroy x`: `buffer_[i].~T()` on the live element `x`;
* `destroyMoved`: `buffer_[i].~T()` on the moved-from slot in `pop(T&)`;
* `visit x`: `callbackFunction(buffer_[i])` for the argument of
  `pop(const std::function<void(T&)>&)`. -/
inductive Event (T : Type) where
  | callback (x : T)
  | deletePtr (x : T)
  | destroy (x : T)
  | destroyMoved
  | visit (x : T)

/-- State of an `SPSCBuffer<T>`: the private members of the class.  A function
object `std::function<void(T&)>` is `none` when empty (`nullptr`) and otherwise
`some f`, where `f x` is the value the referenced element has after the call on
an element of value `x`. -/
structure SPSCBuffer (T : Type) where
  readIndex_ : Nat
  writeIndex_ : Nat
  capacity_ : Nat
  buffer_ : List (Option T)
  callbackFunctionToCallWhilePop : Option (T → T)

/-- Result of a member function returning `bool`: the returned value, the
state of the buffer afterwards and the calls made on elements. -/
structure Step (T : Type) where
  ret : Bool
  buf : SPSCBuffer T
  events : List (Event T)

variable {T : Type}

/-- State after `SPSCBuffer(capacity, pop_callbackFunction)` has returned
(allocation succeeded): both indices are 0 and no slot holds an object. -/
def SPSCBuffer.construct (capacity : Nat) (pop_callbackFunction : Option (T → T)) :
    SPSCBuffer T :=
  { readIndex_ := 0
    writeIndex_ := 0
    capacity_ := capacity
    buffer_ := List.replicate capacity none
    callbackFunctionToCallWhilePop := pop_callbackFunction }

/-- Member `bool push(const T &data)`. -/
def SPSCBuffer.push (b : SPSCBuffer T) (data : T) : Step T :=
  let currentWrite := b.writeIndex_
  let nextWrite := u32 (currentWrite + 1) % b.capacity_
  if nextWrite = b.readIndex_ then
    { ret := false, buf := b, events := [] }
  else
    { ret := true
      buf := { b with buffer_ := b.buffer_.set currentWrite (some data)
                      writeIndex_ := nextWrite }
      events := [] }

/-- Member `bool pop()`. -/
def SPSCBuffer.pop (tr : ElemTraits T) (b : SPSCBuffer T) : Option (Step T) :=
  let currentRead := b.readIndex_
  if currentRead = b.writeIndex_ then
    some { ret := false, buf := b, events := [] }
  else
    let nextRead := u32 (currentRead + 1) % b.capacity_
    match b.buffer_[currentRead]? with
    | some (some x) =>
      match b.callbackFunctionToCallWhilePop with
      | some f =>
        some { ret := true
               buf := { b with buffer_ := b.buffer_.set currentRead (some (f x))
                               readIndex_ := nextRead }
               events := [Event.callback x] }
      | none =>
        if tr.is_pointer then
          some { ret := true
                 buf := { b with readIndex_ := nextRead }
                 events := if tr.isNull x then [] else [Event.deletePtr x] }
        else
          some { ret := true
                 buf := { b with buffer_ := b.buffer_.set currentRead none
                                 readIndex_ := nextRead }
                 events := [Event.destroy x] }
    | _ => none

/-- Member `bool pop(T &data)`; the second component of the result is the value
of the variable `data` after the call. -/
def SPSCBuffer.pop_data (b : SPSCBuffer T) (data : T) : Option (Step T × T) :=
  let currentRead := b.readIndex_
  if currentRead = b.writeIndex_ then
    some ({ ret := false, buf := b, events := [] }, data)
  else
    let nextRead := u32 (currentRead + 1) % b.capacity_
    match b.buffer_[currentRead]? with
    | some (some x) =>
      some ({ ret := true
              buf := { b with buffer_ := b.buffer_.set currentRead none
                              readIndex_ := nextRead }
              events := [Event.destroyMoved] }, x)
    | _ => none

/-- Member `bool pop(const std::function<void(T&)> &callbackFunction)`. -/
def SPSCBuffer.pop_callbackFunction (b : SPSCBuffer T)
    (callbackFunction : Option (T → T)) : Option (Step T) :=
  let currentRead := b.readIndex_
  if currentRead = b.writeIndex_ then
    some { ret := false, buf := b, events := [] }
  else
    let nextRead := u32 (currentRead + 1) % b.capacity_
    match callbackFunction with
    | some g =>
      match b.buffer_[currentRead]? with
      | some (some x) =>
        some { ret := true
               buf := { b with buffer_ := b.buffer_.set currentRead (some (g x))
                               readIndex_ := nextRead }
               events := [Event.visit x] }
      | _ => none
    | none =>
      some { ret := true, buf := { b with readIndex_ := nextRead }, events := [] }

/-- Member `bool isEmpty() const`. -/
def SPSCBuffer.isEmpty (b : SPSCBuffer T) : Bool :=
  decide (b.readIndex_ = b.writeIndex_)

/-- Member `bool isFull() const`. -/
def SPSCBuffer.isFull (b : SPSCBuffer T) : Bool :=
  let nextWrite := u32 (b.writeIndex_ + 1) % b.capacity_
  if nextWrite = b.readIndex_ then true else false

/-- Member `size_t capacity() const`: `capacity_-1` in `uint32_t`, widened. -/
def SPSCBuffer.capacity (b : SPSCBuffer T) : Nat :=
  usize (u32 (b.capacity_ + 2 ^ 32 - 1))

/-- Loop of the destructor `~SPSCBuffer()`, with `fuel` bounding the number of
iterations: `currentRead` walks from `readIndex_` to `endIndex` in `size_t`
arithmetic.  Returns the calls made on elements and the final backing store;
`none` when the fuel runs out or a slot without a live object is read. -/
def SPSCBuffer.destructorLoop (tr : ElemTraits T) (cb : Option (T → T)) (capacity_ endIndex : Nat) :
    Nat → Nat → List (Option T) → Option (List (Event T) × List (Option T))
  | 0, currentRead, buffer_ =>
    if currentRead = endIndex then some ([], buffer_) else none
  | fuel + 1, currentRead, buffer_ =>
    if currentRead = endIndex then some ([], buffer_)
    else
      match buffer_[currentRead]? with
      | some (some x) =>
        let nextRead := usize (currentRead + 1) % capacity_
        match cb with
        | some f =>
          (SPSCBuffer.destructorLoop tr cb capacity_ endIndex fuel nextRead
              (buffer_.set currentRead (some (f x)))).map
            fun r => (Event.callback x :: r.1, r.2)
        | none =>
          if tr.is_pointer then
            (SPSCBuffer.destructorLoop tr cb capacity_ endIndex fuel nextRead buffer_).map
              fun r => (Event.deletePtr x :: r.1, r.2)
          else
            (SPSCBuffer.destructorLoop tr cb capacity_ endIndex fuel nextRead
                (buffer_.set currentRead none)).map
              fun r => (Event.destroy x :: r.1, r.2)
      | _ => none

/-- Destructor `~SPSCBuffer()`: the calls it makes on elements before the
backing store is freed.  The guard `std::is_destructible<T>::value` is a
constant that is true for every `T` at which the destructor body compiles (it
names `buffer_[i].~T()` for a non-pointer `T`, and pointer types are
destructible), so it is taken as true. -/
def SPSCBuffer.destructor (tr : ElemTraits T) (fuel : Nat) (b : SPSCBuffer T) :
    Option (List (Event T)) :=
  (SPSCBuffer.destructorLoop tr b.callbackFunctionToCallWhilePop b.capacity_
      (usize b.writeIndex_) fuel (usize b.readIndex_) b.buffer_).map Prod.fst

/-- Consecutive `push` calls, one per value of the list: the final state and
the returned values in call order. -/
def pushAll (b : SPSCBuffer T) : List T → SPSCBuffer T × List Bool
  | [] => (b, [])
  | v :: vs =>
    let s := b.push v
    let r := pushAll s.buf vs
    (r.1, s.ret :: r.2)

/-- One call on the buffer by its user.  `pop_data d` is `pop(data)` for a
variable `data` holding `d` before the call. -/
inductive Call (T : Type) where
  | push (data : T)
  | pop
  | pop_data (data : T)
  | pop_callbackFunction (callbackFunction : Option (T → T))

/-- What a call is seen to do: the call, its return value, the calls made on
elements, and for `pop(data)` the value of `data` afterwards. -/
structure Obs (T : Type) where
  call : Call T
  ret : Bool
  events : List (Event T)
  data : Option T

/-- Perform one call. -/
def step (tr : ElemTraits T) (b : SPSCBuffer T) : Call T → Option (SPSCBuffer T × Obs T)
  | Call.push v =>
    let s := b.push v
    some (s.buf, { call := Call.push v, ret := s.ret, events := s.events, data := none })
  | Call.pop =>
    (b.pop tr).map fun s =>
      (s.buf, { call := Call.pop, ret := s.ret, events := s.events, data := none })
  | Call.pop_data d =>
    (b.pop_data d).map fun s =>
      (s.1.buf, { call := Call.pop_data d, ret := s.1.ret, events := s.1.events,
                  data := some s.2 })
  | Call.pop_callbackFunction g =>
    (b.pop_callbackFunction g).map fun s =>
      (s.buf, { call := Call.pop_callbackFunction g, ret := s.ret, events := s.events,
                data := none })

/-- Perform a sequence of calls one after the other. -/
def run (tr : ElemTraits T) : SPSCBuffer T → List (Call T) → Option (SPSCBuffer T × List (Obs T))
  | b, [] => some (b, [])
  | b, c :: cs =>
    match step tr b c with
    | none => none
    | some (b1, o) =>
      match run tr b1 cs with
      | none => none
      | some (b2, os) => some (b2, o :: os)

/-- Values of the `push` calls that returned `true`, in call order. -/
def pushedOk (obs : List (Obs T)) : List T :=
  obs.filterMap fun o =>
    match o.call, o.ret with
    | Call.push v, true => some v
    | _, _ => none

/-- Number of `pop` calls (any overload) that returned `true`. -/
def popsOk (obs : List (Obs T)) : Nat :=
  (obs.filter fun o =>
    match o.call, o.ret with
    | Call.push _, _ => false
    | _, r => r).length

/-- Values delivered into `data` by the `pop(data)` calls that returned `true`,
in call order. -/
def poppedData (obs : List (Obs T)) : List T :=
  obs.filterMap fun o =>
    match o.call, o.ret with
    | Call.pop_data _, true => o.data
    | _, _ => none

/-- A call is a `push` or a `pop(data)`. -/
def Call.isPushOrPopData : Call T → Bool
  | Call.push _ => true
  | Call.pop_data _ => true
  | _ => false

/-- Representation invariant linking a buffer state to the list `q` of its
unread elements, oldest first: the indices are in range, `writeIndex_` is
`q.length` slots after `readIndex_` (cyclically), fewer than `capacity_`
elements are unread, and the `i`-th slot after `readIndex_` holds `q[i]`. -/
structure Holds (b : SPSCBuffer T) (q : List T) : Prop where
  cap_ge : 2 ≤ b.capacity_
  cap_lt : b.capacity_ < 2 ^ 32
  len : b.buffer_.length = b.capacity_
  r_lt : b.readIndex_ < b.capacity_
  q_lt : q.length < b.capacity_
  w_eq : b.writeIndex_ = (b.readIndex_ + q.length) % b.capacity_
  cells : ∀ i, i < q.length →
    b.buffer_[(b.readIndex_ + i) % b.capacity_]? = some q[i]?

/-- The change of state made by a successful `pop` of any overload: the read
index moves one slot forward (cyclically) and nothing but the slot it leaves
may change. -/
structure Advances (b b1 : SPSCBuffer T) : Prop where
  readIndex : b1.readIndex_ = (b.readIndex_ + 1) % b.capacity_
  writeIndex : b1.writeIndex_ = b.writeIndex_
  capacity : b1.capacity_ = b.capacity_
  callback : b1.callbackFunctionToCallWhilePop = b.callbackFunctionToCallWhilePop
  length : b1.buffer_.length = b.buffer_.length
  others : ∀ i, i ≠ b.readIndex_ → b1.buffer_[i]? = b.buffer_[i]?

/-- Calls that `pop()` makes on the element `x` it removes. -/
def popEvents (tr : ElemTraits T) (cb : Option (T → T)) (x : T) : List (Event T) :=
  match cb with
  | some _ => [Event.callback x]
  | none =>
    if tr.is_pointer then (if tr.isNull x then [] else [Event.deletePtr x])
    else [Event.destroy x]

/-- Calls that `pop(callbackFunction)` makes on the element `x` it removes. -/
def visitEvents (callbackFunction : Option (T → T)) (x : T) : List (Event T) :=
  match callbackFunction with
  | some _ => [Event.visit x]
  | none => []

/-- Call that one iteration of the destructor loop makes on the element `x`. -/
def destructorEvent (tr : ElemTraits T) (cb : Option (T → T)) (x : T) : Event T :=
  match cb with
  | some _ => Event.callback x
  | none => if tr.is_pointer then Event.deletePtr x else Event.destroy x

/-- Traits of a non-pointer element type, used for concrete runs on `Nat`. -/
def natTraits : ElemTraits Nat :=
  { is_pointer := false, isNull := fun _ => false }

/-- Conversion of an integer to `int` (32-bit two's complement): the value
congruent to it modulo `2 ^ 32` in the range `-2 ^ 31 .. 2 ^ 31 - 1`. -/
def toInt32 (n : Int) : Int :=
  if n % 2 ^ 32 < 2 ^ 31 then n % 2 ^ 32 else n % 2 ^ 32 - 2 ^ 32

/-- Member `size_t sizeGuess() const`: `int ret = writeIndex_ - readIndex_` is
the `unsigned int` difference converted to `int`; `ret += capacity_` adds in
`unsigned int` and converts back to `int`; `return ret` converts to `size_t`. -/
def SPSCBuffer.sizeGuess (b : SPSCBuffer T) : Nat :=
  let ret : Int := toInt32 (((b.writeIndex_ : Int) - (b.readIndex_ : Int)) % 2 ^ 32)
  let ret : Int :=
    if ret < 0 then toInt32 ((ret % 2 ^ 32 + (b.capacity_ : Int)) % 2 ^ 32) else ret
  (ret % 2 ^ 64).toNat

/-! ## Detection backends (`src/Detection`, `src/NetraVision/detectionLibrary.H`)

The detectors are embedded as state-passing functions.  Everything outside the
repository (the file system, darknet, OpenCV) is a field of `World`.  A stored
`float` (a box field, a probability, a threshold) is finite and is kept as the
rational it denotes; `float` arithmetic is IEEE 754 single precision, each
operation rounding its exact result to nearest, ties to even (`Float32`).
`int` values are integers. -/

/-- Enumeration `DetectionLibrary::ErrorCode`. -/
inductive ErrorCode where
  | NoError
  | DetectionError
  | classifierNotSelected
  | FileNotFound
  | ConfigurationError
  deriving DecidableEq

/-- Structure `DetectionLibrary::ErrorDetails`. -/
structure ErrorDetails where
  errorcode : ErrorCode
  errormsg : String
  deriving DecidableEq

/-- Structure `DetectionLibrary::PartitionDetectionConfigurationParameter`. -/
structure PartitionDetectionConfigurationParameter where
  numberOfPartitions : Int
  partitionToDetect : List Int
  partitionFlag : Bool
  deriving DecidableEq

/-- Structure `DetectionLibrary::DetectionConfigurationParameter`. -/
structure DetectionConfigurationParameter where
  cfgFile : String
  nameFile : String
  weightFile : String
  nms : ℚ
  thresh : ℚ
  threshHeir : ℚ
  deriving DecidableEq

/-- Structure `DetectionLibrary::ColorRange`. -/
structure ColorRange where
  lowChannel1 : Int
  lowChannel2 : Int
  lowChannel3 : Int
  highChannel1 : Int
  highChannel2 : Int
  highChannel3 : Int
  deriving DecidableEq

/-- Structure `DetectionLibrary::ColorConfigurationParameters`. -/
structure ColorConfigurationParameters where
  colorRanges : List ColorRange
  minContourSize : Int
  maxContourSize : Int
  deriving DecidableEq

/-- An exception leaving a library call: one derived from `std::exception`
(with its `what()` text), or any other. -/
inductive Thrown where
  | std_exception (what : String)
  | other
  deriving DecidableEq

/-- Rectangle `cv::Rect` (`cv::Rect_<int>`). -/
structure Rect where
  x : Int
  y : Int
  width : Int
  height : Int
  deriving DecidableEq

/-- Darknet `box`: centre and size, relative to the image. -/
structure Box where
  x : ℚ
  y : ℚ
  w : ℚ
  h : ℚ

/-- Darknet `detection`: the box and the probability `prob[j]` of each class. -/
structure Detection where
  bbox : Box
  prob : Nat → ℚ

/-- Rounding of a rational to the nearest integer, a tie going to the even
integer. -/
def roundHalfEven (q : ℚ) : Int :=
  if q - ⌊q⌋ < 1 / 2 then ⌊q⌋
  else if 1 / 2 < q - ⌊q⌋ then ⌊q⌋ + 1
  else if ⌊q⌋ % 2 = 0 then ⌊q⌋ else ⌊q⌋ + 1

/-- A value of the type `float` (IEEE 754 single precision): `some q` is the
finite value `q`, `none` an infinity or a NaN.  The fields of `Box` and the
probabilities of `Detection` are finite values and are kept as rationals. -/
abbrev Float32 : Type := Option ℚ

/-- Exponent of the binade of `q > 0` in single precision: `⌊log₂ q⌋`, and
`-126` throughout the subnormal range. -/
def Float32.binade (q : ℚ) : Int := max (Int.log 2 q) (-126)

/-- Rounding of `q ≥ 0` to the nearest multiple of its unit in the last place
`2 ^ (binade q - 23)`, ties to even. -/
def Float32.roundMag (q : ℚ) : ℚ :=
  (roundHalfEven (q / 2 ^ (Float32.binade q - 23)) : ℚ) * 2 ^ (Float32.binade q - 23)

/-- Rounding of a rational to single precision, to nearest with ties to even
(the rounding of every `float` operation and of the conversion `int → float`;
each operation of an expression rounds on its own, a product and a sum are not
fused), the exponent not yet bounded above. -/
def Float32.round (q : ℚ) : ℚ :=
  if 0 ≤ q then Float32.roundMag q else - Float32.roundMag (-q)

/-- Largest finite `float`, `FLT_MAX = (2 - 2⁻²³) * 2¹²⁷`. -/
def Float32.maxFinite : ℚ := (2 ^ 24 - 1) * 2 ^ 104

/-- The `float` produced by an operation whose exact result is `q`: the rounded
value, or an infinity when that exceeds `FLT_MAX`. -/
def Float32.ofRat (q : ℚ) : Float32 :=
  if |Float32.round q| ≤ Float32.maxFinite then some (Float32.round q) else none

/-- Conversion `int → float`. -/
def Float32.ofInt (z : Int) : Float32 := Float32.ofRat (z : ℚ)

/-- Single-precision `a + b`; an infinity or NaN operand gives an infinity or
NaN. -/
def Float32.add (a b : Float32) : Float32 :=
  match a, b with
  | some x, some y => Float32.ofRat (x + y)
  | _, _ => none

/-- Single-precision `a - b`. -/
def Float32.sub (a b : Float32) : Float32 :=
  match a, b with
  | some x, some y => Float32.ofRat (x - y)
  | _, _ => none

/-- Single-precision `a * b` (an infinity times zero is a NaN). -/
def Float32.mul (a b : Float32) : Float32 :=
  match a, b with
  | some x, some y => Float32.ofRat (x * y)
  | _, _ => none

/-- Single-precision `a / d` for a finite divisor `d` (division by zero gives
an infinity or a NaN). -/
def Float32.div (a : Float32) (d : ℚ) : Float32 :=
  match a with
  | some x => if d = 0 then none else Float32.ofRat (x / d)
  | none => none

/-- The surroundings of the detectors.
* `fs_exists`, `fs_is_regular_file`: `fs::exists`, `fs::is_regular_file` in
  their throwing form: `Except.ok b` when the call returns `b`,
  `Except.error t` when it throws `t` (a `std::filesystem::filesystem_error`
  when the status of the path cannot be obtained);
* `getlines path`: the lines that successive `std::getline` calls read from a
  `std::ifstream` opened on `path` (no line when it cannot be opened);
* `parse_network_cfg_custom`, `load_weights`, `readNet`, `setPreferable`
  (`setPreferableBackend` then `setPreferableTarget`): `none` when the call
  returns, `some t` when `t` is thrown;
* `cv_portion cols rows roi`: the OpenCV calls that extract the region `roi`
  of a `cols × rows` image and prepare it for the network, same convention;
* `get_network_boxes roi`: the detections darknet yields for that region;
* `do_nms_sort`: darknet's non-maximum suppression;
* `int_of_unrepresentable f`: the `int` that the machine yields for the
  conversion of a `float` whose truncated value is no `int` (undefined
  behaviour in C++). -/
structure World where
  fs_exists : String → Except Thrown Bool
  fs_is_regular_file : String → Except Thrown Bool
  getlines : String → List String
  parse_network_cfg_custom : String → Option Thrown
  load_weights : String → String → Option Thrown
  readNet : String → Option Thrown
  setPreferable : Option Thrown
  cv_portion : Int → Int → Rect → Option Thrown
  get_network_boxes : Rect → List Detection
  do_nms_sort : List Detection → Int → ℚ → List Detection
  int_of_unrepresentable : Float32 → Int

/-- What `network *net` points to: the zeroed block from `xcalloc`, the
network parsed from a `.cfg` file, or that network with weights loaded. -/
inductive Network where
  | zeroed
  | parsed (cfgFile : String)
  | loaded (cfgFile weightFile : String)
  deriving DecidableEq

/-- Data members of class `Yolo` (`net = none` is `nullptr`). -/
structure Yolo where
  net : Option Network
  probability : List ℚ
  errorDetails : ErrorDetails
  partitionParameter : PartitionDetectionConfigurationParameter
  noOfClass : Int
  numObjects : Int
  nms : ℚ
  thresh : ℚ
  threshHeir : ℚ
  deriving DecidableEq

/-- State after the constructor `Yolo::Yolo()`: the default member initialisers. -/
def Yolo.construct : Yolo :=
  { net := none
    probability := []
    errorDetails := { errorcode := ErrorCode.NoError, errormsg := "" }
    partitionParameter := { numberOfPartitions := 0, partitionToDetect := [], partitionFlag := false }
    noOfClass := 0
    numObjects := 0
    nms := 0
    thresh := 0
    threshHeir := 0 }

/-- Member `Yolo::fileExists` (and the identical `Onnx::fileExists`):
`fs::exists(filePath) && fs::is_regular_file(filePath)`, the second call made
only when the first returns `true`; `Except.error t` when a call throws `t`. -/
def fileExists (w : World) (file : String) : Except Thrown Bool :=
  match w.fs_exists file with
  | Except.error t => Except.error t
  | Except.ok false => Except.ok false
  | Except.ok true => w.fs_is_regular_file file

/-- Error message stored by the two handlers of `Yolo`: `e.what()` for a
`std::exception`, the fixed text for any other exception. -/
def Thrown.message : Thrown → String
  | Thrown.std_exception what => what
  | Thrown.other => "Default Exception was catched"

/-- Member `Yolo::configuration`: the returned value and the state afterwards.
An exception thrown by a file check is caught by the handlers of the function
like one thrown by the backend. -/
def Yolo.configuration (w : World) (s : Yolo) (parameters : DetectionConfigurationParameter)
    (partitionPara : PartitionDetectionConfigurationParameter) : Bool × Yolo :=
  let s := { s with nms := parameters.nms, thresh := parameters.thresh
                    threshHeir := parameters.threshHeir }
  match fileExists w parameters.cfgFile with
  | Except.error t =>
    (false, { s with errorDetails :=
      { errorcode := ErrorCode.ConfigurationError, errormsg := t.message } })
  | Except.ok false =>
    (false, { s with errorDetails :=
      { errorcode := ErrorCode.FileNotFound, errormsg := ".cfg file not found" } })
  | Except.ok true =>
    match fileExists w parameters.weightFile with
    | Except.error t =>
      (false, { s with errorDetails :=
        { errorcode := ErrorCode.ConfigurationError, errormsg := t.message } })
    | Except.ok false =>
      (false, { s with errorDetails :=
        { errorcode := ErrorCode.FileNotFound, errormsg := ".weight file not found" } })
    | Except.ok true =>
      match fileExists w parameters.nameFile with
      | Except.error t =>
        (false, { s with errorDetails :=
          { errorcode := ErrorCode.ConfigurationError, errormsg := t.message } })
      | Except.ok false =>
        (false, { s with errorDetails :=
          { errorcode := ErrorCode.FileNotFound, errormsg := ".names file not found" } })
      | Except.ok true =>
        let s := { s with noOfClass :=
          s.noOfClass + ((w.getlines parameters.nameFile).length : Int) }
        let s := { s with net := some Network.zeroed }
        match w.parse_network_cfg_custom parameters.cfgFile with
        | some t =>
          (false, { s with errorDetails :=
            { errorcode := ErrorCode.ConfigurationError, errormsg := t.message } })
        | none =>
          let s := { s with net := some (Network.parsed parameters.cfgFile) }
          match w.load_weights parameters.cfgFile parameters.weightFile with
          | some t =>
            (false, { s with errorDetails :=
              { errorcode := ErrorCode.ConfigurationError, errormsg := t.message } })
          | none =>
            (true, { s with net := some (Network.loaded parameters.cfgFile parameters.weightFile)
                            partitionParameter := partitionPara })

/-- Truncation of a rational toward zero. -/
def truncToInt (q : ℚ) : Int := if 0 ≤ q then ⌊q⌋ else ⌈q⌉

/-- Conversion `float → int`: the value truncated toward zero when that is an
`int`; for any other finite value, an infinity or a NaN the conversion is
undefined and the result is the one the machine yields. -/
def floatToInt (w : World) (f : Float32) : Int :=
  match f with
  | some q =>
    if -2147483648 ≤ truncToInt q ∧ truncToInt q ≤ 2147483647 then truncToInt q
    else w.int_of_unrepresentable f
  | none => w.int_of_unrepresentable f

/-- The `float` expression `(c - s / 2) * n` of `Yolo::detect` for a box with
centre coordinate `c` and size `s` on `n` pixels: `s / 2`, the difference and
the product are each rounded to single precision, `n` is converted to `float`
(the divisor `2` converts exactly). -/
def Yolo.edge (c s : ℚ) (n : Int) : Float32 :=
  Float32.mul (Float32.sub (some c) (Float32.div (some s) 2)) (Float32.ofInt n)

/-- Width of a strip: `imageWidth / partitionParameter.numberOfPartitions` in
`int` arithmetic (quotient truncated toward zero). -/
def Yolo.desiredWidth (imageWidth numberOfPartitions : Int) : Int :=
  Int.tdiv imageWidth numberOfPartitions

/-- First column of strip `part`: `part * desiredWidth`. -/
def Yolo.startX (part desiredWidth : Int) : Int := part * desiredWidth

/-- Column after the last one of strip `part`: `(part + 1) * desiredWidth`,
clamped to `imageWidth`. -/
def Yolo.endX (part desiredWidth imageWidth : Int) : Int :=
  if (part + 1) * desiredWidth > imageWidth then imageWidth else (part + 1) * desiredWidth

/-- Region of interest `roiRect` of strip `part`. -/
def Yolo.roiRect (part desiredWidth imageWidth imageHeight : Int) : Rect :=
  { x := Yolo.startX part desiredWidth
    y := 0
    width := Yolo.endX part desiredWidth imageWidth - Yolo.startX part desiredWidth
    height := imageHeight }

/-- Region stored for a box in the partition branch of `Yolo::detect`: the four
`float` arguments of `cv::Rect(...)` converted to `int`, for a strip of
`cols × rows` pixels starting at column `startX`. -/
def Yolo.regionPartition (w : World) (startX cols rows : Int) (bbox : Box) : Rect :=
  { x := floatToInt w (Float32.add (Float32.ofInt startX) (Yolo.edge bbox.x bbox.w cols))
    y := floatToInt w (Yolo.edge bbox.y bbox.h rows)
    width := floatToInt w (Float32.mul (some bbox.w) (Float32.ofInt cols))
    height := floatToInt w (Float32.mul (some bbox.h) (Float32.ofInt rows)) }

/-- Region stored for a box in the whole-image branch of `Yolo::detect`, for an
image of `cols × rows` pixels. -/
def Yolo.regionWhole (w : World) (cols rows : Int) (bbox : Box) : Rect :=
  { x := floatToInt w (Yolo.edge bbox.x bbox.w cols)
    y := floatToInt w (Yolo.edge bbox.y bbox.h rows)
    width := floatToInt w (Float32.mul (some bbox.w) (Float32.ofInt cols))
    height := floatToInt w (Float32.mul (some bbox.h) (Float32.ofInt rows)) }

/-- The result map `std::map<int, std::vector<std::pair<cv::Rect, float>>>`:
the vector stored under each key (empty when the key is absent). -/
abbrev ObjectInfoList := Int → List (Rect × ℚ)

/-- Statement `objectInfoList[j].push_back(e)`. -/
def ObjectInfoList.push_back (m : ObjectInfoList) (j : Int) (e : Rect × ℚ) : ObjectInfoList :=
  fun k => if k = j then m k ++ [e] else m k

/-- Inner loop `for (int j = 0; j < noOfClass; ++j)` on one detection, acting
on the pair of `objectInfoList` and `objectCount`. -/
def Yolo.storeBox (thresh : ℚ) (noOfClass : Int) (region : Rect) (d : Detection)
    (acc : ObjectInfoList × Int) : ObjectInfoList × Int :=
  (List.range noOfClass.toNat).foldl
    (fun a j =>
      if d.prob j > thresh then (a.1.push_back (j : Int) (region, d.prob j), a.2 + 1) else a)
    acc

/-- Outer loop `for (int i = 0; i < nboxes; i++)` over the detections. -/
def Yolo.storeBoxes (thresh : ℚ) (noOfClass : Int) (region : Box → Rect)
    (detections : List Detection) (acc : ObjectInfoList × Int) : ObjectInfoList × Int :=
  detections.foldl (fun a d => Yolo.storeBox thresh noOfClass (region d.bbox) d a) acc

/-- Loop `for (int part : partitionParameter.partitionToDetect)` of
`Yolo::detect`: the exception that ended it, if any, and the outputs so far. -/
def Yolo.detectPartitions (w : World) (s : Yolo) (imageWidth imageHeight desiredWidth : Int) :
    List Int → ObjectInfoList × Int → Option Thrown × (ObjectInfoList × Int)
  | [], acc => (none, acc)
  | part :: rest, acc =>
    let roi := Yolo.roiRect part desiredWidth imageWidth imageHeight
    match w.cv_portion imageWidth imageHeight roi with
    | some t => (some t, acc)
    | none =>
      let detections := w.get_network_boxes roi
      let detections :=
        if s.nms ≠ 0 then w.do_nms_sort detections s.noOfClass s.nms else detections
      Yolo.detectPartitions w s imageWidth imageHeight desiredWidth rest
        (Yolo.storeBoxes s.thresh s.noOfClass
          (Yolo.regionPartition w (Yolo.startX part desiredWidth) roi.width roi.height)
          detections acc)

/-- Member `Yolo::detect` on an image of `cols × rows` pixels: the returned
value, the state, `objectInfoList` and `objectCount` afterwards.  The result is
`none` when `numberOfPartitions` is 0 in the partition branch (integer division
by zero, undefined behaviour). -/
def Yolo.detect (w : World) (s : Yolo) (cols rows : Int) (objectInfoList : ObjectInfoList)
    (objectCount : Int) : Option (Bool × Yolo × ObjectInfoList × Int) :=
  match s.net with
  | none =>
    some (false,
      { s with errorDetails :=
        { errorcode := ErrorCode.DetectionError
          errormsg := "Failed to initialize the neural network for object detection." } },
      objectInfoList, objectCount)
  | some _ =>
    if s.partitionParameter.partitionFlag then
      if s.partitionParameter.numberOfPartitions = 0 then none
      else
        let r := Yolo.detectPartitions w s cols rows
          (Yolo.desiredWidth cols s.partitionParameter.numberOfPartitions)
          s.partitionParameter.partitionToDetect (objectInfoList, objectCount)
        match r.1 with
        | some t =>
          some (false,
            { s with errorDetails :=
              { errorcode := ErrorCode.DetectionError, errormsg := t.message } },
            r.2.1, r.2.2)
        | none =>
          some (true,
            { s with errorDetails := { errorcode := ErrorCode.NoError, errormsg := "" } },
            r.2.1, r.2.2)
    else
      match w.cv_portion cols rows { x := 0, y := 0, width := cols, height := rows } with
      | some t =>
        some (false,
          { s with errorDetails :=
            { errorcode := ErrorCode.DetectionError, errormsg := t.message } },
          objectInfoList, objectCount)
      | none =>
        let detections :=
          w.get_network_boxes { x := 0, y := 0, width := cols, height := rows }
        let detections :=
          if s.nms ≠ 0 then w.do_nms_sort detections s.noOfClass s.nms else detections
        let r := Yolo.storeBoxes s.thresh s.noOfClass (Yolo.regionWhole w cols rows)
          detections (objectInfoList, objectCount)
        some (true,
          { s with errorDetails := { errorcode := ErrorCode.NoError, errormsg := "" } },
          r.1, r.2)

/-- Data members of class `Onnx` that `configuration` reads or writes
(`net_ = none` is the empty `cv::dnn::Net`, `some f` the model read from `f`). -/
structure Onnx where
  errorDetails : ErrorDetails
  nms : ℚ
  thresh : ℚ
  threshHeir : ℚ
  net_ : Option String
  names : List String
  size_ : Int
  confidenceThreshold_ : ℚ
  nmsScoreThreshold : ℚ
  deriving DecidableEq

/-- State after the constructor `Onnx::Onnx()`.  The member
`confidenceThreshold_` has no initialiser; its indeterminate value is the
argument. -/
def Onnx.construct (confidenceThreshold_ : ℚ) : Onnx :=
  { errorDetails := { errorcode := ErrorCode.NoError, errormsg := "" }
    nms := 0
    thresh := 0
    threshHeir := 0
    net_ := none
    names := []
    size_ := 640
    confidenceThreshold_ := confidenceThreshold_
    nmsScoreThreshold := 0 * confidenceThreshold_ }

/-- Member `Onnx::configuration`: the returned value and the state afterwards;
`none` when an exception that is not a `std::exception` leaves the function
(there is no handler for it).  An exception thrown by the file check reaches
the same handler as one thrown by OpenCV. -/
def Onnx.configuration (w : World) (s : Onnx) (parameters : DetectionConfigurationParameter)
    (_partitionParameter : PartitionDetectionConfigurationParameter) : Option (Bool × Onnx) :=
  match fileExists w parameters.weightFile with
  | Except.error (Thrown.std_exception what) =>
    some (false, { s with errorDetails :=
      { errorcode := ErrorCode.DetectionError, errormsg := what } })
  | Except.error Thrown.other => none
  | Except.ok false =>
    some (false, { s with errorDetails :=
      { errorcode := ErrorCode.FileNotFound, errormsg := ".weight file not found" } })
  | Except.ok true =>
    match w.readNet parameters.weightFile with
    | some (Thrown.std_exception what) =>
      some (false, { s with errorDetails :=
        { errorcode := ErrorCode.DetectionError, errormsg := what } })
    | some Thrown.other => none
    | none =>
      let s := { s with net_ := some parameters.weightFile }
      match w.setPreferable with
      | some (Thrown.std_exception what) =>
        some (false, { s with errorDetails :=
          { errorcode := ErrorCode.DetectionError, errormsg := what } })
      | some Thrown.other => none
      | none =>
        let s := { s with names := s.names ++ w.getlines parameters.nameFile }
        let s := { s with confidenceThreshold_ := s.thresh }
        let s := { s with threshHeir := parameters.thresh }
        let s := { s with nms := parameters.nms }
        some (true,
          { s with errorDetails := { errorcode := ErrorCode.NoError, errormsg := "" } })

/-- Data members of class `ColorInRangeDetection`. -/
structure ColorInRangeDetection where
  parameter : ColorConfigurationParameters
  heightPix : Int
  widthPix : Int
  errorDetails : ErrorDetails
  deriving DecidableEq

/-- Member `ColorInRangeDetection::configuration`: the three assignments of
the `try` block (copying the parameters is taken not to throw). -/
def ColorInRangeDetection.configuration (s : ColorInRangeDetection)
    (parameters : ColorConfigurationParameters)
    (_partitionParameter : PartitionDetectionConfigurationParameter) (height width : Int) :
    Bool × ColorInRangeDetection :=
  (true, { s with parameter := parameters, heightPix := height, widthPix := width })

/-- A world in which every file exists, the class-names file `names` holds the
given lines, and every library call returns; an undefined conversion to `int`
yields `INT_MIN`. -/
def worldWithNames (lines : List String) : World :=
  { fs_exists := fun _ => Except.ok true
    fs_is_regular_file := fun _ => Except.ok true
    getlines := fun path => if path = "names" then lines else []
    parse_network_cfg_custom := fun _ => none
    load_weights := fun _ _ => none
    readNet := fun _ => none
    setPreferable := none
    cv_portion := fun _ _ _ => none
    get_network_boxes := fun _ => []
    do_nms_sort := fun d _ _ => d
    int_of_unrepresentable := fun _ => -2147483648 }

/-- Parameters naming the files `cfg`, `names` and `weights`. -/
def exampleParameters : DetectionConfigurationParameter :=
  { cfgFile := "cfg", nameFile := "names", weightFile := "weights"
    nms := 0, thresh := 1 / 2, threshHeir := 1 / 2 }

/-- Partitioning switched off. -/
def noPartition : PartitionDetectionConfigurationParameter :=
  { numberOfPartitions := 0, partitionToDetect := [], partitionFlag := false }

/-- A world like `worldWithNames []` except that the file `missing` does not
exist. -/
def worldWithout (missing : String) : World :=
  { worldWithNames [] with fs_exists := fun path => Except.ok (path != missing) }

/-- The name of 300 letters `w`, longer than a file name may be (`NAME_MAX` is
255). -/
def nameTooLong : String := String.mk (List.replicate 300 'w')

/-- A world like `worldWithNames []` in which the status of a path of more than
255 characters cannot be obtained: `fs::exists` throws a
`std::filesystem::filesystem_error` on it (no such file exists). -/
def worldNameTooLong : World :=
  { worldWithNames [] with
    fs_exists := fun path =>
      if path.length > 255 then
        Except.error (Thrown.std_exception "filesystem error: status: File name too long")
      else Except.ok true }

/-- Parameters naming the files `cfg` and `names` and, as weights file, the
name of 300 letters. -/
def tooLongWeightParameters : DetectionConfigurationParameter :=
  { cfgFile := "cfg", nameFile := "names", weightFile := nameTooLong
    nms := 0, thresh := 1 / 2, threshHeir := 1 / 2 }

/-- A world like `worldWithNames ["a", "b", "c"]` in which building the network
fails: `parse_network_cfg_custom` and `readNet` throw a `std::exception`. -/
def worldBackendThrows : World :=
  { worldWithNames ["a", "b", "c"] with
    parse_network_cfg_custom := fun _ => some (Thrown.std_exception "cannot parse cfg")
    readNet := fun _ => some (Thrown.std_exception "cannot read model") }

/-- Entry that the result loop of `Yolo::detect` appends under class `j` for a
box `rd.2` whose stored region is `rd.1`: present when `j` is one of the loop
indices `0 ≤ j < noOfClass` and `prob[j] > thresh`. -/
def Yolo.entryFor (thresh : ℚ) (noOfClass : Int) (j : Int) (rd : Rect × Detection) :
    Option (Rect × ℚ) :=
  if 0 ≤ j ∧ j < noOfClass ∧ rd.2.prob j.toNat > thresh then
    some (rd.1, rd.2.prob j.toNat)
  else none

/-- Number of loop indices `j` in `0 ≤ j < noOfClass` with `prob[j] > thresh`
for one box. -/
def Yolo.hits (thresh : ℚ) (noOfClass : Int) (d : Detection) : Nat :=
  ((List.range noOfClass.toNat).filter (fun i => decide (d.prob i > thresh))).length

/-- Sum of `Yolo.hits` over a list of boxes. -/
def Yolo.hitsAll (thresh : ℚ) (noOfClass : Int) (vs : List (Rect × Detection)) : Nat :=
  (vs.map (fun rd => Yolo.hits thresh noOfClass rd.2)).sum

/-- Boxes that the result loop of the partition branch of `Yolo::detect` visits,
in order, each with the region stored for it: those of every requested strip up
to the first one on which an OpenCV call throws. -/
def Yolo.visitedPartitions (w : World) (s : Yolo) (imageWidth imageHeight desiredWidth : Int) :
    List Int → List (Rect × Detection)
  | [] => []
  | part :: rest =>
    let roi := Yolo.roiRect part desiredWidth imageWidth imageHeight
    match w.cv_portion imageWidth imageHeight roi with
    | some _ => []
    | none =>
      let detections := w.get_network_boxes roi
      let detections :=
        if s.nms ≠ 0 then w.do_nms_sort detections s.noOfClass s.nms else detections
      detections.map
          (fun d => (Yolo.regionPartition w (Yolo.startX part desiredWidth) roi.width
            roi.height d.bbox, d))
        ++ Yolo.visitedPartitions w s imageWidth imageHeight desiredWidth rest

/-- Boxes that the result loops of `Yolo::detect` visit on an image of
`cols × rows` pixels, in order, each with the region stored for it. -/
def Yolo.visited (w : World) (s : Yolo) (cols rows : Int) : List (Rect × Detection) :=
  match s.net with
  | none => []
  | some _ =>
    if s.partitionParameter.partitionFlag then
      Yolo.visitedPartitions w s cols rows
        (Yolo.desiredWidth cols s.partitionParameter.numberOfPartitions)
        s.partitionParameter.partitionToDetect
    else
      match w.cv_portion cols rows { x := 0, y := 0, width := cols, height := rows } with
      | some _ => []
      | none =>
        let detections :=
          w.get_network_boxes { x := 0, y := 0, width := cols, height := rows }
        let detections :=
          if s.nms ≠ 0 then w.do_nms_sort detections s.noOfClass s.nms else detections
        detections.map (fun d => (Yolo.regionWhole w cols rows d.bbox, d))

/-- Number of entries that `objectInfoList` holds under the classes
`0, …, noOfClass - 1`. -/
def entriesIn (m : ObjectInfoList) (noOfClass : Int) : Nat :=
  ((List.range noOfClass.toNat).map (fun (i : Nat) => (m (i : Int)).length)).sum

/-- A contour returned by `findContours`, seen through the OpenCV calls the
loop of `ColorInRangeDetection::detect` makes on it: `draw` is the outcome of
`drawContours` and `contourArea` (`none` when they return), `contourArea` the
area, `annotate` the outcome of `putText` and `boundingRect`, `boundingRect`
the bounding rectangle. -/
structure Contour where
  draw : Option Thrown
  contourArea : ℚ
  annotate : Option Thrown
  boundingRect : Rect

/-- Error message stored by the two handlers of `ColorInRangeDetection`. -/
def Thrown.messageColor : Thrown → String
  | Thrown.std_exception what => what
  | Thrown.other => "Default Exception Catched"

/-- Loop over the contours in `ColorInRangeDetection::detect`, acting on the
pair of `noOfObject` and `boundingBox`: the exception that ended it, if any,
and the outputs so far.  (The local `ret` and `totalArea` are never handed
out and are left out.) -/
def ColorInRangeDetection.detectLoop (s : ColorInRangeDetection) :
    List Contour → Int × List Rect → Option Thrown × (Int × List Rect)
  | [], acc => (none, acc)
  | c :: rest, acc =>
    match c.draw with
    | some t => (some t, acc)
    | none =>
      if (s.parameter.maxContourSize : ℚ) ≥ c.contourArea ∧
          (s.parameter.minContourSize : ℚ) ≤ c.contourArea then
        match c.annotate with
        | some t => (some t, acc)
        | none =>
          if c.boundingRect.width ≥ s.widthPix ∧ c.boundingRect.height > s.heightPix then
            ColorInRangeDetection.detectLoop s rest (acc.1 + 1, acc.2 ++ [c.boundingRect])
          else ColorInRangeDetection.detectLoop s rest acc
      else ColorInRangeDetection.detectLoop s rest acc

/-- Member `ColorInRangeDetection::detect`: the returned value, the state,
`noOfObject` and `boundingBox` afterwards.  `findContours ranges` stands for the
OpenCV calls before the loop on the given image (colour conversion, `inRange`
for each colour range, `morphologyEx`, `findContours`): the contours found, or
the exception thrown. -/
def ColorInRangeDetection.detect (findContours : List ColorRange → Except Thrown (List Contour))
    (s : ColorInRangeDetection) (noOfObject : Int) (boundingBox : List Rect) :
    Bool × ColorInRangeDetection × Int × List Rect :=
  match findContours s.parameter.colorRanges with
  | Except.error t =>
    (false,
      { s with errorDetails :=
        { errorcode := ErrorCode.DetectionError, errormsg := t.messageColor } },
      noOfObject, boundingBox)
  | Except.ok contours =>
    let r := ColorInRangeDetection.detectLoop s contours (noOfObject, boundingBox)
    match r.1 with
    | some t =>
      (false,
        { s with errorDetails :=
          { errorcode := ErrorCode.DetectionError, errormsg := t.messageColor } },
        r.2.1, r.2.2)
    | none =>
      (true,
        { s with errorDetails := { errorcode := ErrorCode.NoError, errormsg := "" } },
        r.2.1, r.2.2)

/-- A world like `worldWithNames ["a", "b", "c"]` in which darknet yields one
box, with probability `9/10` for class 1 and `1/10` for every other class. -/
def worldWithBoxes : World :=
  { worldWithNames ["a", "b", "c"] with
    get_network_boxes := fun _ =>
      [{ bbox := { x := 1 / 2, y := 1 / 2, w := 1 / 5, h := 1 / 5 }
         prob := fun j => if j = 1 then 9 / 10 else 1 / 10 }] }

/-- The empty result map. -/
def ObjectInfoList.empty : ObjectInfoList := fun _ => []

/-- A colour detector holding no colour range, contour sizes 0..100 and
minimum height and width 0. -/
def exampleColorDetector : ColorInRangeDetection :=
  { parameter := { colorRanges := [], minContourSize := 0, maxContourSize := 100 }
    heightPix := 0
    widthPix := 0
    errorDetails := { errorcode := ErrorCode.NoError, errormsg := "" } }

/-! ## Arithmetic of the cyclic indices -/

theorem wrap_eq {C a : Nat} (h : a < 2 * C) :
    a % C = if a < C then a else a - C := by
  split
  · exact Nat.mod_eq_of_lt (by assumption)
  · rw [Nat.mod_eq_sub_mod (by omega), Nat.mod_eq_of_lt (by omega)]

theorem u32_succ {C i : Nat} (hC : C < 2 ^ 32) (hi : i < C) : u32 (i + 1) = i + 1 := by
  unfold u32
  exact Nat.mod_eq_of_lt (by omega)

theorem usize_of_lt {C i : Nat} (hC : C < 2 ^ 32) (hi : i ≤ C) : usize i = i := by
  unfold usize
  exact Nat.mod_eq_of_lt (by omega)

theorem slot_inj {C r i j : Nat} (hr : r < C) (hi : i < C) (hj : j < C)
    (h : (r + i) % C = (r + j) % C) : i = j := by
  rw [wrap_eq (by omega), wrap_eq (by omega)] at h
  split_ifs at h <;> omega

theorem slot_lt {C r i : Nat} (hC : 0 < C) : (r + i) % C < C := Nat.mod_lt _ hC

theorem next_slot {C r n : Nat} : ((r + n) % C + 1) % C = (r + (n + 1)) % C := by
  rw [Nat.mod_add_mod, Nat.add_assoc]

theorem next_eq_read_iff {C r n : Nat} (hr : r < C) (hn : n < C) :
    (r + (n + 1)) % C = r ↔ n + 1 = C := by
  rw [wrap_eq (by omega)]
  split_ifs <;> omega

theorem read_eq_write_iff {C r n : Nat} (hr : r < C) (hn : n < C) :
    r = (r + n) % C ↔ n = 0 := by
  rw [wrap_eq (by omega)]
  split_ifs <;> omega

/-! ## The member functions on a state satisfying the invariant -/

theorem holds_construct {C : Nat} (cb : Option (T → T)) (h2 : 2 ≤ C) (h32 : C < 2 ^ 32) :
    Holds (SPSCBuffer.construct C cb) ([] : List T) where
  cap_ge := h2
  cap_lt := h32
  len := by simp [SPSCBuffer.construct]
  r_lt := by simp only [SPSCBuffer.construct]; omega
  q_lt := by simp only [SPSCBuffer.construct, List.length_nil]; omega
  w_eq := by simp [SPSCBuffer.construct]
  cells := by intro i hi; simp at hi

theorem Holds.w_lt {b : SPSCBuffer T} {q : List T} (h : Holds b q) :
    b.writeIndex_ < b.capacity_ := by
  rw [h.w_eq]
  exact Nat.mod_lt _ (by have := h.cap_ge; omega)

theorem Holds.next_write {b : SPSCBuffer T} {q : List T} (h : Holds b q) :
    u32 (b.writeIndex_ + 1) % b.capacity_ = (b.readIndex_ + (q.length + 1)) % b.capacity_ := by
  rw [u32_succ h.cap_lt h.w_lt, h.w_eq, next_slot]

theorem Holds.next_read {b : SPSCBuffer T} {q : List T} (h : Holds b q) :
    u32 (b.readIndex_ + 1) % b.capacity_ = (b.readIndex_ + 1) % b.capacity_ := by
  rw [u32_succ h.cap_lt h.r_lt]

theorem Holds.isFull_iff {b : SPSCBuffer T} {q : List T} (h : Holds b q) :
    u32 (b.writeIndex_ + 1) % b.capacity_ = b.readIndex_ ↔ q.length + 1 = b.capacity_ := by
  rw [h.next_write]
  exact next_eq_read_iff h.r_lt h.q_lt

theorem Holds.isEmpty_iff {b : SPSCBuffer T} {q : List T} (h : Holds b q) :
    b.readIndex_ = b.writeIndex_ ↔ q = [] := by
  rw [h.w_eq, read_eq_write_iff h.r_lt h.q_lt]
  exact List.length_eq_zero

theorem Holds.push_full {b : SPSCBuffer T} {q : List T} (h : Holds b q) (v : T)
    (hq : q.length + 1 = b.capacity_) :
    b.push v = { ret := false, buf := b, events := [] } := by
  unfold SPSCBuffer.push
  simp only [h.isFull_iff.mpr hq, if_true]

theorem Holds.push_not_full {b : SPSCBuffer T} {q : List T} (h : Holds b q) (v : T)
    (hq : q.length + 1 ≠ b.capacity_) :
    b.push v =
      { ret := true
        buf := { b with buffer_ := b.buffer_.set b.writeIndex_ (some v)
                        writeIndex_ := (b.writeIndex_ + 1) % b.capacity_ }
        events := [] } := by
  unfold SPSCBuffer.push
  have hne : ¬ u32 (b.writeIndex_ + 1) % b.capacity_ = b.readIndex_ :=
    fun e => hq (h.isFull_iff.mp e)
  rw [if_neg hne, u32_succ h.cap_lt h.w_lt]

theorem Holds.after_push {b : SPSCBuffer T} {q : List T} (h : Holds b q) (v : T)
    (hq : q.length + 1 ≠ b.capacity_) :
    Holds { b with buffer_ := b.buffer_.set b.writeIndex_ (some v)
                   writeIndex_ := (b.writeIndex_ + 1) % b.capacity_ } (q ++ [v]) where
  cap_ge := h.cap_ge
  cap_lt := h.cap_lt
  len := by simp [h.len]
  r_lt := h.r_lt
  q_lt := by
    have := h.q_lt
    simp only [List.length_append, List.length_singleton]
    omega
  w_eq := by
    simp only [List.length_append, List.length_singleton]
    rw [h.w_eq, next_slot]
  cells := by
    intro i hi
    simp only [List.length_append, List.length_singleton] at hi
    have hlt := h.q_lt
    by_cases hin : i < q.length
    · have hne : b.writeIndex_ ≠ (b.readIndex_ + i) % b.capacity_ := by
        rw [h.w_eq]
        intro e
        have := slot_inj h.r_lt h.q_lt (by omega) e
        omega
      simp only [List.getElem?_set_ne hne, h.cells i hin, List.getElem?_append_left hin]
    · have hi2 : i = q.length := by omega
      subst hi2
      have hw : b.writeIndex_ < b.buffer_.length := by rw [h.len]; exact h.w_lt
      simp only [← h.w_eq, List.getElem?_set_self hw]
      simp

theorem Holds.read_slot {b : SPSCBuffer T} {q : List T} {x : T} (h : Holds b (x :: q)) :
    b.buffer_[b.readIndex_]? = some (some x) := by
  have := h.cells 0 (by simp)
  simpa [Nat.mod_eq_of_lt h.r_lt] using this

theorem Holds.nonempty {b : SPSCBuffer T} {q : List T} {x : T} (h : Holds b (x :: q)) :
    ¬ b.readIndex_ = b.writeIndex_ := by
  rw [h.isEmpty_iff]
  simp

theorem Holds.after_pop {b : SPSCBuffer T} {q : List T} {x : T} (h : Holds b (x :: q))
    (buf : List (Option T)) (hlen : buf.length = b.buffer_.length)
    (hsame : ∀ i, i ≠ b.readIndex_ → buf[i]? = b.buffer_[i]?) :
    Holds { b with buffer_ := buf
                   readIndex_ := (b.readIndex_ + 1) % b.capacity_ } q where
  cap_ge := h.cap_ge
  cap_lt := h.cap_lt
  len := by simp [hlen, h.len]
  r_lt := Nat.mod_lt _ (by have := h.cap_ge; omega)
  q_lt := by
    have := h.q_lt
    simp only [List.length_cons] at this
    show q.length < b.capacity_
    omega
  w_eq := by
    show b.writeIndex_ = ((b.readIndex_ + 1) % b.capacity_ + q.length) % b.capacity_
    rw [h.w_eq, Nat.mod_add_mod, List.length_cons]
    congr 1
    omega
  cells := by
    intro i hi
    show buf[((b.readIndex_ + 1) % b.capacity_ + i) % b.capacity_]? = some q[i]?
    have hq := h.q_lt
    simp only [List.length_cons] at hq
    have hidx : ((b.readIndex_ + 1) % b.capacity_ + i) % b.capacity_
        = (b.readIndex_ + (i + 1)) % b.capacity_ := by
      rw [Nat.mod_add_mod]
      congr 1
      omega
    rw [hidx]
    have hne : (b.readIndex_ + (i + 1)) % b.capacity_ ≠ b.readIndex_ := by
      intro e
      have := (next_eq_read_iff h.r_lt (by omega)).mp e
      omega
    rw [hsame _ hne, h.cells (i + 1) (by simp only [List.length_cons]; omega)]
    simp

theorem set_same_length {l : List (Option T)} {r : Nat} {c : Option T} :
    (l.set r c).length = l.length := List.length_set _ _ _

theorem set_other {l : List (Option T)} {r : Nat} {c : Option T} :
    ∀ i, i ≠ r → (l.set r c)[i]? = l[i]? := by
  intro i hi
  exact List.getElem?_set_ne (Ne.symm hi)

theorem Holds.advance {b b1 : SPSCBuffer T} {q : List T} {x : T} (h : Holds b (x :: q))
    (a : Advances b b1) : Holds b1 q := by
  obtain ⟨r1, w1, c1, buf1, cb1⟩ := b1
  obtain ⟨h1, h2, h3, h4, h5, h6⟩ := a
  simp only at h1 h2 h3 h4 h5 h6
  subst h1 h2 h3 h4
  exact h.after_pop buf1 h5 h6

theorem advances_set (b : SPSCBuffer T) (c : Option T) :
    Advances b { b with buffer_ := b.buffer_.set b.readIndex_ c
                        readIndex_ := (b.readIndex_ + 1) % b.capacity_ } where
  readIndex := rfl
  writeIndex := rfl
  capacity := rfl
  callback := rfl
  length := set_same_length
  others := set_other

theorem advances_keep (b : SPSCBuffer T) :
    Advances b { b with readIndex_ := (b.readIndex_ + 1) % b.capacity_ } where
  readIndex := rfl
  writeIndex := rfl
  capacity := rfl
  callback := rfl
  length := rfl
  others := fun _ _ => rfl

theorem pop_of_empty (tr : ElemTraits T) {b : SPSCBuffer T}
    (h : b.readIndex_ = b.writeIndex_) :
    b.pop tr = some { ret := false, buf := b, events := [] } := by
  unfold SPSCBuffer.pop
  simp only [h, if_true]

theorem pop_data_of_empty {b : SPSCBuffer T} (d : T)
    (h : b.readIndex_ = b.writeIndex_) :
    b.pop_data d = some ({ ret := false, buf := b, events := [] }, d) := by
  unfold SPSCBuffer.pop_data
  simp only [h, if_true]

theorem pop_callbackFunction_of_empty {b : SPSCBuffer T} (g : Option (T → T))
    (h : b.readIndex_ = b.writeIndex_) :
    b.pop_callbackFunction g = some { ret := false, buf := b, events := [] } := by
  unfold SPSCBuffer.pop_callbackFunction
  simp only [h, if_true]

theorem Holds.pop_cons {b : SPSCBuffer T} {q : List T} {x : T} (h : Holds b (x :: q))
    (tr : ElemTraits T) :
    ∃ b1, Advances b b1 ∧
      b.pop tr = some { ret := true, buf := b1
                        events := popEvents tr b.callbackFunctionToCallWhilePop x } := by
  have hne := h.nonempty
  have hs := h.read_slot
  have hn := h.next_read
  obtain ⟨r, w, c, buf, cb⟩ := b
  simp only at hne hs hn
  unfold SPSCBuffer.pop popEvents
  simp only [if_neg hne, hs, hn]
  cases cb with
  | some f => exact ⟨_, advances_set _ _, rfl⟩
  | none =>
    cases hp : tr.is_pointer with
    | true => exact ⟨_, advances_keep _, by simp⟩
    | false => exact ⟨_, advances_set _ none, by simp⟩

theorem Holds.pop_data_cons {b : SPSCBuffer T} {q : List T} {x : T} (h : Holds b (x :: q))
    (d : T) :
    ∃ b1, Advances b b1 ∧
      b.pop_data d = some ({ ret := true, buf := b1, events := [Event.destroyMoved] }, x) := by
  unfold SPSCBuffer.pop_data
  simp only [if_neg h.nonempty, h.read_slot, h.next_read]
  exact ⟨_, advances_set b _, rfl⟩

theorem Holds.pop_callbackFunction_cons {b : SPSCBuffer T} {q : List T} {x : T}
    (h : Holds b (x :: q)) (g : Option (T → T)) :
    ∃ b1, Advances b b1 ∧
      b.pop_callbackFunction g =
        some { ret := true, buf := b1, events := visitEvents g x } := by
  unfold SPSCBuffer.pop_callbackFunction visitEvents
  simp only [if_neg h.nonempty, h.read_slot, h.next_read]
  cases g with
  | some f => exact ⟨_, advances_set b _, rfl⟩
  | none => exact ⟨_, advances_keep b, rfl⟩

/-! ## Sequences of calls -/

theorem pushedOk_cons (o : Obs T) (os : List (Obs T)) :
    pushedOk (o :: os) = pushedOk [o] ++ pushedOk os := by
  unfold pushedOk
  rw [← List.filterMap_append]
  rfl

theorem popsOk_cons (o : Obs T) (os : List (Obs T)) :
    popsOk (o :: os) = popsOk [o] + popsOk os := by
  unfold popsOk
  rw [← List.length_append, ← List.filter_append]
  rfl

theorem poppedData_cons (o : Obs T) (os : List (Obs T)) :
    poppedData (o :: os) = poppedData [o] ++ poppedData os := by
  unfold poppedData
  rw [← List.filterMap_append]
  rfl

theorem step_holds (tr : ElemTraits T) {b : SPSCBuffer T} {q : List T} (h : Holds b q)
    (c : Call T) :
    ∃ b1 o tk q1, step tr b c = some (b1, o) ∧ Holds b1 q1 ∧
      q ++ pushedOk [o] = tk ++ q1 ∧ tk.length = popsOk [o] ∧
      b1.capacity_ = b.capacity_ ∧
      b1.callbackFunctionToCallWhilePop = b.callbackFunctionToCallWhilePop ∧
      (c.isPushOrPopData = true → poppedData [o] = tk) := by
  cases c with
  | push v =>
    by_cases hq : q.length + 1 = b.capacity_
    · refine ⟨b, ⟨Call.push v, false, [], none⟩, [], q,
        ?_, h, ?_, ?_, rfl, rfl, ?_⟩
      · simp only [step, h.push_full v hq]
      · simp [pushedOk]
      · simp [popsOk]
      · intro _; simp [poppedData]
    · refine ⟨_, ⟨Call.push v, true, [], none⟩, [],
        q ++ [v], ?_, h.after_push v hq, ?_, ?_, rfl, rfl, ?_⟩
      · simp only [step, h.push_not_full v hq]
      · simp [pushedOk]
      · simp [popsOk]
      · intro _; simp [poppedData]
  | pop =>
    cases q with
    | nil =>
      refine ⟨b, ⟨Call.pop, false, [], none⟩, [], [],
        ?_, h, ?_, ?_, rfl, rfl, ?_⟩
      · simp only [step, pop_of_empty tr (h.isEmpty_iff.mpr rfl), Option.map_some']
      · simp [pushedOk]
      · simp [popsOk]
      · intro hc; simp [Call.isPushOrPopData] at hc
    | cons x q1 =>
      obtain ⟨b1, ha, he⟩ := h.pop_cons tr
      refine ⟨b1, ⟨Call.pop, true, popEvents tr b.callbackFunctionToCallWhilePop x, none⟩, [x], q1, ?_, h.advance ha, ?_, ?_, ha.capacity, ha.callback, ?_⟩
      · simp only [step, he, Option.map_some']
      · simp [pushedOk]
      · simp [popsOk]
      · intro hc; simp [Call.isPushOrPopData] at hc
  | pop_data d =>
    cases q with
    | nil =>
      refine ⟨b, ⟨Call.pop_data d, false, [], some d⟩, [], [],
        ?_, h, ?_, ?_, rfl, rfl, ?_⟩
      · simp only [step, pop_data_of_empty d (h.isEmpty_iff.mpr rfl), Option.map_some']
      · simp [pushedOk]
      · simp [popsOk]
      · intro _; simp [poppedData]
    | cons x q1 =>
      obtain ⟨b1, ha, he⟩ := h.pop_data_cons d
      refine ⟨b1, ⟨Call.pop_data d, true, [Event.destroyMoved], some x⟩, [x], q1, ?_, h.advance ha, ?_, ?_, ha.capacity, ha.callback, ?_⟩
      · simp only [step, he, Option.map_some']
      · simp [pushedOk]
      · simp [popsOk]
      · intro _; simp [poppedData]
  | pop_callbackFunction g =>
    cases q with
    | nil =>
      refine ⟨b, ⟨Call.pop_callbackFunction g, false, [], none⟩, [], [],
        ?_, h, ?_, ?_, rfl, rfl, ?_⟩
      · simp only [step, pop_callbackFunction_of_empty g (h.isEmpty_iff.mpr rfl),
          Option.map_some']
      · simp [pushedOk]
      · simp [popsOk]
      · intro hc; simp [Call.isPushOrPopData] at hc
    | cons x q1 =>
      obtain ⟨b1, ha, he⟩ := h.pop_callbackFunction_cons g
      refine ⟨b1, ⟨Call.pop_callbackFunction g, true, visitEvents g x, none⟩, [x], q1, ?_, h.advance ha, ?_, ?_, ha.capacity, ha.callback, ?_⟩
      · simp only [step, he, Option.map_some']
      · simp [pushedOk]
      · simp [popsOk]
      · intro hc; simp [Call.isPushOrPopData] at hc

theorem run_holds (tr : ElemTraits T) :
    ∀ (calls : List (Call T)) (b : SPSCBuffer T) (q : List T), Holds b q →
      ∃ b1 obs tk q1, run tr b calls = some (b1, obs) ∧ Holds b1 q1 ∧
        q ++ pushedOk obs = tk ++ q1 ∧ tk.length = popsOk obs ∧
        b1.capacity_ = b.capacity_ ∧
        b1.callbackFunctionToCallWhilePop = b.callbackFunctionToCallWhilePop ∧
        ((∀ c ∈ calls, c.isPushOrPopData = true) → poppedData obs = tk) := by
  intro calls
  induction calls with
  | nil =>
    intro b q h
    exact ⟨b, [], [], q, rfl, h, by simp [pushedOk], by simp [popsOk], rfl, rfl,
      fun _ => by simp [poppedData]⟩
  | cons c cs ih =>
    intro b q h
    obtain ⟨b1, o, tk, q1, hs, h1, hq1, htk, hc1, hcb1, hp1⟩ := step_holds tr h c
    obtain ⟨b2, os, tk2, q2, hr, h2, hq2, htk2, hc2, hcb2, hp2⟩ := ih b1 q1 h1
    refine ⟨b2, o :: os, tk ++ tk2, q2, ?_, h2, ?_, ?_, hc2.trans hc1, hcb2.trans hcb1, ?_⟩
    · simp only [run, hs, hr]
    · rw [pushedOk_cons, ← List.append_assoc, hq1, List.append_assoc, hq2,
        List.append_assoc]
    · rw [popsOk_cons, List.length_append, htk, htk2]
    · intro hall
      rw [poppedData_cons, hp1 (hall c (List.mem_cons_self _ _)),
        hp2 (fun c1 hc => hall c1 (List.mem_cons_of_mem _ hc))]

/-- Every sequence of calls on a freshly constructed buffer runs to completion,
and the final state holds, oldest first, exactly the successfully pushed values
that no successful pop has removed yet. -/
theorem run_construct (tr : ElemTraits T) {C : Nat} (cb : Option (T → T))
    (h2 : 2 ≤ C) (h32 : C < 2 ^ 32) (calls : List (Call T)) :
    ∃ b obs, run tr (SPSCBuffer.construct C cb) calls = some (b, obs) ∧
      Holds b ((pushedOk obs).drop (popsOk obs)) ∧
      popsOk obs ≤ (pushedOk obs).length ∧
      b.capacity_ = C ∧ b.callbackFunctionToCallWhilePop = cb ∧
      ((∀ c ∈ calls, c.isPushOrPopData = true) →
        poppedData obs = (pushedOk obs).take (popsOk obs)) := by
  obtain ⟨b, obs, tk, q, hr, h, hq, htk, hc, hcb, hp⟩ :=
    run_holds tr calls _ _ (holds_construct cb h2 h32)
  simp only [List.nil_append] at hq
  refine ⟨b, obs, hr, ?_, ?_, hc, hcb, ?_⟩
  · rw [hq, ← htk, List.drop_left]
    exact h
  · rw [hq, ← htk, List.length_append]
    omega
  · intro hall
    rw [hp hall, hq, ← htk, List.take_left]

theorem run_reaches (tr : ElemTraits T) {C : Nat} {cb : Option (T → T)}
    (h2 : 2 ≤ C) (h32 : C < 2 ^ 32) {calls : List (Call T)} {b : SPSCBuffer T}
    {obs : List (Obs T)} (hr : run tr (SPSCBuffer.construct C cb) calls = some (b, obs)) :
    Holds b ((pushedOk obs).drop (popsOk obs)) ∧
      popsOk obs ≤ (pushedOk obs).length ∧
      b.capacity_ = C ∧ b.callbackFunctionToCallWhilePop = cb := by
  obtain ⟨b1, obs1, hr1, h, hle, hc, hcb, _⟩ := run_construct tr cb h2 h32 calls
  rw [hr] at hr1
  simp only [Option.some.injEq, Prod.mk.injEq] at hr1
  obtain ⟨rfl, rfl⟩ := hr1
  exact ⟨h, hle, hc, hcb⟩

theorem Holds.isFull_eq {b : SPSCBuffer T} {q : List T} (h : Holds b q) :
    b.isFull = decide (q.length + 1 = b.capacity_) := by
  unfold SPSCBuffer.isFull
  by_cases hq : q.length + 1 = b.capacity_
  · simp only [h.isFull_iff.mpr hq, if_true, hq, decide_True]
  · have hne : ¬ u32 (b.writeIndex_ + 1) % b.capacity_ = b.readIndex_ :=
      fun e => hq (h.isFull_iff.mp e)
    simp only [hne, if_false, hq, decide_False]

theorem Holds.isEmpty_eq {b : SPSCBuffer T} {q : List T} (h : Holds b q) :
    b.isEmpty = q.isEmpty := by
  unfold SPSCBuffer.isEmpty
  cases q with
  | nil => simp [h.isEmpty_iff.mpr rfl]
  | cons x q1 => simp [h.nonempty]

theorem capacity_eq {b : SPSCBuffer T} (h2 : 2 ≤ b.capacity_) (h32 : b.capacity_ < 2 ^ 32) :
    b.capacity = b.capacity_ - 1 := by
  unfold SPSCBuffer.capacity usize u32
  have e : b.capacity_ + 2 ^ 32 - 1 = (b.capacity_ - 1) + 2 ^ 32 := by omega
  rw [e, Nat.add_mod_right, Nat.mod_eq_of_lt (a := b.capacity_ - 1) (by omega),
    Nat.mod_eq_of_lt (by omega)]

theorem pushAll_holds :
    ∀ (vs : List T) (b : SPSCBuffer T) (q : List T), Holds b q →
      Holds (pushAll b vs).1 (q ++ vs.take (b.capacity_ - 1 - q.length)) ∧
      (pushAll b vs).1.capacity_ = b.capacity_ ∧
      ∀ j, j < vs.length →
        (pushAll b vs).2[j]? = some (decide (q.length + j + 1 < b.capacity_)) := by
  intro vs
  induction vs with
  | nil =>
    intro b q h
    refine ⟨by simpa [pushAll] using h, rfl, ?_⟩
    intro j hj
    simp at hj
  | cons v vs ih =>
    intro b q h
    have hlt := h.q_lt
    by_cases hq : q.length + 1 = b.capacity_
    · obtain ⟨ih1, ih2, ih3⟩ := ih b q h
      have e0 : b.capacity_ - 1 - q.length = 0 := by omega
      simp only [pushAll, h.push_full v hq]
      refine ⟨?_, ih2, ?_⟩
      · rw [e0] at ih1 ⊢
        simpa using ih1
      · intro j hj
        cases j with
        | zero =>
          have : ¬ q.length + 0 + 1 < b.capacity_ := by omega
          simp [this]
        | succ j =>
          simp only [List.length_cons] at hj
          rw [List.getElem?_cons_succ, ih3 j (by omega)]
          have h1 : ¬ q.length + j + 1 < b.capacity_ := by omega
          have h2 : ¬ q.length + (j + 1) + 1 < b.capacity_ := by omega
          simp [h1, h2]
    · obtain ⟨ih1, ih2, ih3⟩ := ih _ _ (h.after_push v hq)
      simp only [pushAll, h.push_not_full v hq]
      simp only [List.length_append, List.length_singleton] at ih1 ih3
      refine ⟨?_, ih2, ?_⟩
      · have e1 : b.capacity_ - 1 - q.length = (b.capacity_ - 1 - (q.length + 1)) + 1 := by
          omega
        rw [e1, List.take_succ_cons]
        simpa using ih1
      · intro j hj
        cases j with
        | zero =>
          have : q.length + 0 + 1 < b.capacity_ := by omega
          simp [this]
        | succ j =>
          simp only [List.length_cons] at hj
          rw [List.getElem?_cons_succ, ih3 j (by omega)]
          have e2 : q.length + 1 + j + 1 = q.length + (j + 1) + 1 := by omega
          rw [e2]

theorem cyclic_distance {C r n : Nat} (hr : r < C) (hn : n < C) :
    ((((r + n) % C : Nat) : Int) - (r : Int)) % (C : Int) = (n : Int) := by
  rw [wrap_eq (by omega)]
  split_ifs with hlt
  · have e : (((r + n : Nat) : Int) - (r : Int)) = (n : Int) := by omega
    rw [e]
    exact Int.emod_eq_of_lt (by omega) (by omega)
  · have e : (((r + n - C : Nat) : Int) - (r : Int)) = (n : Int) + (-1) * (C : Int) := by
      omega
    rw [e, Int.add_mul_emod_self]
    exact Int.emod_eq_of_lt (by omega) (by omega)

theorem Holds.count {b : SPSCBuffer T} {q : List T} (h : Holds b q) :
    ((b.writeIndex_ : Int) - (b.readIndex_ : Int)) % (b.capacity_ : Int) = (q.length : Int) := by
  rw [h.w_eq]
  exact cyclic_distance h.r_lt h.q_lt

theorem Holds.cons_of_not_isEmpty {b : SPSCBuffer T} {q : List T} (h : Holds b q)
    (hne : b.isEmpty = false) : ∃ x q1, q = x :: q1 := by
  rw [h.isEmpty_eq] at hne
  cases q with
  | nil => simp at hne
  | cons x q1 => exact ⟨x, q1, rfl⟩

theorem drop_head {l : List T} {k : Nat} {x : T} {q1 : List T} (h : l.drop k = x :: q1) :
    l[k]? = some x := by
  have := List.getElem?_drop l k 0
  rw [h] at this
  simpa using this.symm

theorem destructorLoop_holds (tr : ElemTraits T) :
    ∀ (q : List T) (b : SPSCBuffer T) (fuel : Nat), Holds b q → q.length ≤ fuel →
      ∃ buf, SPSCBuffer.destructorLoop tr b.callbackFunctionToCallWhilePop b.capacity_
          b.writeIndex_ fuel b.readIndex_ b.buffer_
        = some (q.map (destructorEvent tr b.callbackFunctionToCallWhilePop), buf) := by
  intro q
  induction q with
  | nil =>
    intro b fuel h _
    have he := h.isEmpty_iff.mpr rfl
    cases fuel <;> exact ⟨b.buffer_, by simp [SPSCBuffer.destructorLoop, he]⟩
  | cons x q ih =>
    intro b fuel h hf
    cases fuel with
    | zero => simp at hf
    | succ fuel =>
      simp only [List.length_cons, Nat.add_le_add_iff_right] at hf
      have hne := h.nonempty
      have hs := h.read_slot
      have hn : usize (b.readIndex_ + 1) = b.readIndex_ + 1 :=
        usize_of_lt h.cap_lt h.r_lt
      have i1 := fun c => ih _ fuel (h.advance (advances_set b c)) hf
      have i2 := ih _ fuel (h.advance (advances_keep b)) hf
      obtain ⟨r, w, c, buf, cb⟩ := b
      simp only at hne hs hn i1 i2
      unfold SPSCBuffer.destructorLoop
      simp only [if_neg hne, hs, hn]
      cases cb with
      | some f =>
        obtain ⟨buf1, e1⟩ := i1 (some (f x))
        exact ⟨buf1, by simp [e1, destructorEvent]⟩
      | none =>
        cases hp : tr.is_pointer with
        | true =>
          obtain ⟨buf1, e1⟩ := i2
          exact ⟨buf1, by simp [e1, destructorEvent, hp]⟩
        | false =>
          obtain ⟨buf1, e1⟩ := i1 none
          exact ⟨buf1, by simp [e1, destructorEvent, hp]⟩

theorem Holds.destructor_eq {b : SPSCBuffer T} {q : List T} (h : Holds b q)
    (tr : ElemTraits T) {fuel : Nat} (hf : q.length ≤ fuel) :
    b.destructor tr fuel = some (q.map (destructorEvent tr b.callbackFunctionToCallWhilePop)) := by
  obtain ⟨buf, e⟩ := destructorLoop_holds tr q b fuel h hf
  unfold SPSCBuffer.destructor
  rw [usize_of_lt h.cap_lt (Nat.le_of_lt h.w_lt), usize_of_lt h.cap_lt (Nat.le_of_lt h.r_lt), e]
  rfl

/-! ## Claims -/

/-- C1: on a freshly constructed buffer of capacity `C` (`2 ≤ C`, a `uint32_t`
value) and for any list of values pushed one after the other, each of the first
`C - 1` pushes returns `true` and the `C`-th returns `false`; `isFull()` is
`false` after `j < C - 1` pushes and `true` after exactly `C - 1` pushes; and
`capacity()` returns `C - 1`. -/
theorem C1_push_accepts_capacity_minus_one (C : Nat) (cb : Option (T → T)) (vs : List T)
    (h2 : 2 ≤ C) (h32 : C < 2 ^ 32) :
    (∀ j, j < C - 1 → j < vs.length →
      (pushAll (SPSCBuffer.construct C cb) vs).2[j]? = some true) ∧
    (C - 1 < vs.length →
      (pushAll (SPSCBuffer.construct C cb) vs).2[C - 1]? = some false) ∧
    (∀ j, j < C - 1 → j ≤ vs.length →
      (pushAll (SPSCBuffer.construct C cb) (vs.take j)).1.isFull = false) ∧
    (C - 1 ≤ vs.length →
      (pushAll (SPSCBuffer.construct C cb) (vs.take (C - 1))).1.isFull = true) ∧
    (pushAll (SPSCBuffer.construct C cb) vs).1.capacity = C - 1 := by
  have h0 : Holds (SPSCBuffer.construct C cb) ([] : List T) := holds_construct cb h2 h32
  have hcap : (SPSCBuffer.construct C cb : SPSCBuffer T).capacity_ = C := rfl
  have key := fun ws => pushAll_holds ws _ _ h0
  simp only [hcap, List.length_nil, Nat.sub_zero, List.nil_append, Nat.zero_add] at key
  refine ⟨?_, ?_, ?_, ?_, ?_⟩
  · intro j hj hjl
    rw [(key vs).2.2 j hjl]
    have : j + 1 < C := by omega
    simp [this]
  · intro hl
    rw [(key vs).2.2 (C - 1) hl]
    have : ¬ C - 1 + 1 < C := by omega
    simp [this]
  · intro j hj hjl
    have hk := (key (vs.take j)).1
    rw [hk.isFull_eq, (key (vs.take j)).2.1]
    have : ¬ min (C - 1) (min j vs.length) + 1 = C := by omega
    simp only [List.length_take, this, decide_False]
  · intro hl
    have hk := (key (vs.take (C - 1))).1
    rw [hk.isFull_eq, (key (vs.take (C - 1))).2.1]
    have : min (C - 1) (min (C - 1) vs.length) + 1 = C := by omega
    simp only [List.length_take, this, decide_True]
  · rw [capacity_eq (by rw [(key vs).2.1]; exact h2) (by rw [(key vs).2.1]; exact h32),
      (key vs).2.1]

theorem C1_push_accepts_capacity_minus_one_witness :
    (2 ≤ 3 ∧ 3 < 2 ^ 32) ∧
    (pushAll (SPSCBuffer.construct 3 (none : Option (Nat → Nat))) [10, 20, 30]).2
      = [true, true, false] ∧
    (pushAll (SPSCBuffer.construct 3 (none : Option (Nat → Nat))) [10, 20, 30]).2[2]?
      = some false :=
  ⟨⟨by decide, by decide⟩, by decide,
    (C1_push_accepts_capacity_minus_one 3 none [10, 20, 30] (by decide) (by decide)).2.1
      (by decide)⟩

/-- C2: for every capacity `C` (`2 ≤ C`, a `uint32_t` value) and every finite
sequence of `push(v)` and `pop(data)` calls on a fresh buffer, the run
completes, the values delivered by the successful `pop(data)` calls form a
prefix of the values of the successful `push` calls, and the `i`-th delivered
value is the `i`-th successfully pushed value. -/
theorem C2_pop_data_fifo (tr : ElemTraits T) (C : Nat) (cb : Option (T → T))
    (calls : List (Call T)) (h2 : 2 ≤ C) (h32 : C < 2 ^ 32)
    (hcalls : ∀ c ∈ calls, c.isPushOrPopData = true) :
    ∃ b obs, run tr (SPSCBuffer.construct C cb) calls = some (b, obs) ∧
      poppedData obs <+: pushedOk obs ∧
      (poppedData obs).length = popsOk obs ∧
      ∀ (i : Nat) (x : T), (poppedData obs)[i]? = some x → (pushedOk obs)[i]? = some x := by
  obtain ⟨b, obs, hr, _, hle, _, _, hp⟩ := run_construct tr cb h2 h32 calls
  have e := hp hcalls
  refine ⟨b, obs, hr, ?_, ?_, ?_⟩
  · rw [e]
    exact List.take_prefix _ _
  · rw [e, List.length_take]
    omega
  · intro i x hx
    rw [e, List.getElem?_take] at hx
    split_ifs at hx
    exact hx

theorem C2_pop_data_fifo_witness :
    (2 ≤ 3 ∧ 3 < 2 ^ 32) ∧
    ∃ b obs, run natTraits (SPSCBuffer.construct 3 none)
        [Call.push 1, Call.push 2, Call.push 3, Call.pop_data 0, Call.push 4,
          Call.pop_data 0, Call.pop_data 0, Call.pop_data 0] = some (b, obs) ∧
      poppedData obs <+: pushedOk obs ∧
      (poppedData obs).length = popsOk obs ∧
      ∀ (i : Nat) (x : Nat), (poppedData obs)[i]? = some x → (pushedOk obs)[i]? = some x :=
  ⟨⟨by decide, by decide⟩,
    C2_pop_data_fifo natTraits 3 none _ (by decide) (by decide)
      (by simp [Call.isPushOrPopData])⟩

/-- C3: in every state reached from a fresh buffer of capacity `C` (`2 ≤ C`, a
`uint32_t` value), `push(v)` returns `false` iff `isFull()` holds before the
call; a failed push leaves the whole state unchanged; a successful push stores
`v` in the slot at the old `writeIndex`, makes `writeIndex` equal to
`(old writeIndex + 1) mod C`, keeps `readIndex`, changes no other slot, and in
particular leaves every unread element in place. -/
theorem C3_push_fails_iff_full (tr : ElemTraits T) (C : Nat) (cb : Option (T → T))
    (calls : List (Call T)) (b : SPSCBuffer T) (obs : List (Obs T)) (v : T)
    (h2 : 2 ≤ C) (h32 : C < 2 ^ 32)
    (hr : run tr (SPSCBuffer.construct C cb) calls = some (b, obs)) :
    ((b.push v).ret = false ↔ b.isFull = true) ∧
    ((b.push v).ret = false → (b.push v).buf = b) ∧
    ((b.push v).ret = true →
      (b.push v).buf.buffer_[b.writeIndex_]? = some (some v) ∧
      (b.push v).buf.writeIndex_ = (b.writeIndex_ + 1) % C ∧
      (b.push v).buf.readIndex_ = b.readIndex_ ∧
      (∀ i, i ≠ b.writeIndex_ → (b.push v).buf.buffer_[i]? = b.buffer_[i]?) ∧
      (∀ i, i < (pushedOk obs).length - popsOk obs →
        (b.push v).buf.buffer_[(b.readIndex_ + i) % C]?
          = b.buffer_[(b.readIndex_ + i) % C]?)) := by
  obtain ⟨h, _, hc, _⟩ := run_reaches tr h2 h32 hr
  have hlen : ((pushedOk obs).drop (popsOk obs)).length
      = (pushedOk obs).length - popsOk obs := List.length_drop _ _
  generalize (pushedOk obs).drop (popsOk obs) = q at h hlen
  rw [← hlen]
  by_cases hq : q.length + 1 = b.capacity_
  · have hf : b.isFull = true := by rw [h.isFull_eq]; simp [hq]
    rw [h.push_full v hq]
    simp [hf]
  · have hf : b.isFull = false := by rw [h.isFull_eq]; simp [hq]
    have hw : b.writeIndex_ < b.buffer_.length := by rw [h.len]; exact h.w_lt
    rw [h.push_not_full v hq]
    simp only [hf, hc, List.getElem?_set_self hw, true_and, Bool.true_eq_false,
      Bool.false_eq_true, false_implies, forall_true_left, and_true]
    refine ⟨?_, ?_⟩
    · intro i hi
      exact List.getElem?_set_ne (Ne.symm hi)
    · intro i hi
      have hql := h.q_lt
      apply List.getElem?_set_ne
      rw [h.w_eq, hc]
      intro e
      have := slot_inj (hc ▸ h.r_lt) (hc ▸ h.q_lt) (by omega) e
      omega

theorem C3_push_fails_iff_full_witness :
    (2 ≤ 3 ∧ 3 < 2 ^ 32) ∧
    ((SPSCBuffer.push
        { readIndex_ := 0, writeIndex_ := 2, capacity_ := 3
          buffer_ := [some 1, some 2, none]
          callbackFunctionToCallWhilePop := (none : Option (Nat → Nat)) } 3).ret = false ↔
      SPSCBuffer.isFull
        { readIndex_ := 0, writeIndex_ := 2, capacity_ := 3
          buffer_ := [some 1, some 2, none]
          callbackFunctionToCallWhilePop := (none : Option (Nat → Nat)) } = true) :=
  ⟨⟨by decide, by decide⟩,
    (C3_push_fails_iff_full natTraits 3 none [Call.push 1, Call.push 2]
      { readIndex_ := 0, writeIndex_ := 2, capacity_ := 3
        buffer_ := [some 1, some 2, none]
        callbackFunctionToCallWhilePop := none }
      [⟨Call.push 1, true, [], none⟩, ⟨Call.push 2, true, [], none⟩] 3
      (by decide) (by decide) rfl).1⟩

/-- C4: in every state reached from a fresh buffer, each of `pop()`,
`pop(data)` and `pop(callbackFunction)` returns, and returns `false` iff
`isEmpty()` holds before the call; when it returns `false` the whole state
(both indices and every slot) is unchanged, no call is made on any element
(neither the release callback nor the visitor runs), and `data` keeps its
value. -/
theorem C4_pop_fails_iff_empty (tr : ElemTraits T) (C : Nat) (cb : Option (T → T))
    (calls : List (Call T)) (b : SPSCBuffer T) (obs : List (Obs T))
    (h2 : 2 ≤ C) (h32 : C < 2 ^ 32)
    (hr : run tr (SPSCBuffer.construct C cb) calls = some (b, obs)) :
    (∃ s, b.pop tr = some s ∧ (s.ret = false ↔ b.isEmpty = true) ∧
      (s.ret = false → s.buf = b ∧ s.events = [])) ∧
    (∀ d, ∃ s d1, b.pop_data d = some (s, d1) ∧ (s.ret = false ↔ b.isEmpty = true) ∧
      (s.ret = false → s.buf = b ∧ s.events = [] ∧ d1 = d)) ∧
    (∀ g, ∃ s, b.pop_callbackFunction g = some s ∧ (s.ret = false ↔ b.isEmpty = true) ∧
      (s.ret = false → s.buf = b ∧ s.events = [])) := by
  obtain ⟨h, _, _, _⟩ := run_reaches tr h2 h32 hr
  have hE := h.isEmpty_eq
  generalize (pushedOk obs).drop (popsOk obs) = q at h hE
  cases q with
  | nil =>
    have he := h.isEmpty_iff.mpr rfl
    refine ⟨⟨_, pop_of_empty tr he, ?_, ?_⟩, fun d => ⟨_, _, pop_data_of_empty d he, ?_, ?_⟩,
      fun g => ⟨_, pop_callbackFunction_of_empty g he, ?_, ?_⟩⟩ <;> simp [hE]
  | cons x q1 =>
    obtain ⟨b1, _, e1⟩ := h.pop_cons tr
    refine ⟨⟨_, e1, ?_, ?_⟩, fun d => ?_, fun g => ?_⟩
    · simp [hE]
    · simp
    · obtain ⟨b2, _, e2⟩ := h.pop_data_cons d
      exact ⟨_, _, e2, by simp [hE], by simp⟩
    · obtain ⟨b3, _, e3⟩ := h.pop_callbackFunction_cons g
      exact ⟨_, e3, by simp [hE], by simp⟩

theorem C4_pop_fails_iff_empty_witness :
    (2 ≤ 2 ∧ 2 < 2 ^ 32) ∧
    ∃ s d1, SPSCBuffer.pop_data (SPSCBuffer.construct 2 (none : Option (Nat → Nat))) 7
        = some (s, d1) ∧
      (s.ret = false ↔
        (SPSCBuffer.construct 2 (none : Option (Nat → Nat))).isEmpty = true) ∧
      (s.ret = false →
        s.buf = SPSCBuffer.construct 2 none ∧ s.events = [] ∧ d1 = 7) :=
  ⟨⟨by decide, by decide⟩,
    (C4_pop_fails_iff_empty natTraits 2 none [] (SPSCBuffer.construct 2 none) []
      (by decide) (by decide) rfl).2.1 7⟩

/-- C5: for a buffer constructed with a release callback, in every state
reached from the fresh buffer, with `k` unread elements (the successfully
pushed values not yet popped, `k ≤ C - 1`), the destructor terminates (any fuel
of at least `k` iterations suffices) and the calls it makes on elements are
exactly the release callback on each unread element, oldest first: `k` calls
and nothing else. -/
theorem C5_destructor_releases_unread (tr : ElemTraits T) (C : Nat) (f : T → T)
    (calls : List (Call T)) (b : SPSCBuffer T) (obs : List (Obs T)) (fuel : Nat)
    (h2 : 2 ≤ C) (h32 : C < 2 ^ 32)
    (hr : run tr (SPSCBuffer.construct C (some f)) calls = some (b, obs))
    (hfuel : (pushedOk obs).length - popsOk obs ≤ fuel) :
    b.destructor tr fuel
        = some (((pushedOk obs).drop (popsOk obs)).map Event.callback) ∧
      (((pushedOk obs).drop (popsOk obs)).map Event.callback).length
        = (pushedOk obs).length - popsOk obs ∧
      (pushedOk obs).length - popsOk obs ≤ C - 1 := by
  obtain ⟨h, _, hc, hcb⟩ := run_reaches tr h2 h32 hr
  have hlen : ((pushedOk obs).drop (popsOk obs)).length
      = (pushedOk obs).length - popsOk obs := List.length_drop _ _
  refine ⟨?_, by rw [List.length_map, hlen], ?_⟩
  · rw [h.destructor_eq tr (by rw [hlen]; exact hfuel), hcb]
    rfl
  · have := h.q_lt
    rw [hlen, hc] at this
    omega

theorem C5_destructor_releases_unread_witness :
    (2 ≤ 3 ∧ 3 < 2 ^ 32) ∧
    SPSCBuffer.destructor natTraits 3
        { readIndex_ := 1, writeIndex_ := 0, capacity_ := 3
          buffer_ := [some 11, some 2, some 3]
          callbackFunctionToCallWhilePop := some (fun x => x + 10) }
      = some [Event.callback 2, Event.callback 3] :=
  ⟨⟨by decide, by decide⟩,
    (C5_destructor_releases_unread natTraits 3 (fun x => x + 10)
      [Call.push 1, Call.push 2, Call.pop, Call.push 3, Call.push 4]
      { readIndex_ := 1, writeIndex_ := 0, capacity_ := 3
        buffer_ := [some 11, some 2, some 3]
        callbackFunctionToCallWhilePop := some (fun x => x + 10) }
      [⟨Call.push 1, true, [], none⟩, ⟨Call.push 2, true, [], none⟩,
        ⟨Call.pop, true, [Event.callback 1], none⟩, ⟨Call.push 3, true, [], none⟩,
        ⟨Call.push 4, false, [], none⟩]
      3 (by decide) (by decide) (by rfl) (by decide)).1⟩

/-- C6: every sequence of `push` and `pop` calls (any overload) on a fresh buffer
of capacity `C` (`2 ≤ C`, a `uint32_t` value) runs to completion; successful
pops never outnumber successful pushes; if `isEmpty()` is `true` afterwards the
two numbers are equal; and their difference always equals
`(writeIndex - readIndex) mod C`. -/
theorem C6_push_pop_balance (tr : ElemTraits T) (C : Nat) (cb : Option (T → T))
    (calls : List (Call T)) (h2 : 2 ≤ C) (h32 : C < 2 ^ 32) :
    ∃ b obs, run tr (SPSCBuffer.construct C cb) calls = some (b, obs) ∧
      popsOk obs ≤ (pushedOk obs).length ∧
      (b.isEmpty = true → popsOk obs = (pushedOk obs).length) ∧
      ((pushedOk obs).length : Int) - (popsOk obs : Int)
        = ((b.writeIndex_ : Int) - (b.readIndex_ : Int)) % (C : Int) := by
  obtain ⟨b, obs, hr, h, hle, hc, _, _⟩ := run_construct tr cb h2 h32 calls
  have hlen : ((pushedOk obs).drop (popsOk obs)).length
      = (pushedOk obs).length - popsOk obs := List.length_drop _ _
  refine ⟨b, obs, hr, hle, ?_, ?_⟩
  · intro he
    rw [h.isEmpty_eq, List.isEmpty_iff] at he
    rw [he] at hlen
    simp only [List.length_nil] at hlen
    omega
  · have hcount := h.count
    rw [hc, hlen] at hcount
    rw [hcount]
    omega

theorem C6_push_pop_balance_witness :
    (2 ≤ 3 ∧ 3 < 2 ^ 32) ∧
    ∃ b obs, run natTraits (SPSCBuffer.construct 3 (some (fun x => x + 10)))
        [Call.push 1, Call.push 2, Call.pop, Call.push 3, Call.pop_data 0,
          Call.pop_callbackFunction none] = some (b, obs) ∧
      popsOk obs ≤ (pushedOk obs).length ∧
      (b.isEmpty = true → popsOk obs = (pushedOk obs).length) ∧
      ((pushedOk obs).length : Int) - (popsOk obs : Int)
        = ((b.writeIndex_ : Int) - (b.readIndex_ : Int)) % ((3 : Nat) : Int) :=
  ⟨⟨by decide, by decide⟩,
    C6_push_pop_balance natTraits 3 (some (fun x => x + 10)) _ (by decide) (by decide)⟩

/-- C7: in every state reached from a fresh buffer of capacity `C` (`2 ≤ C`, a
`uint32_t` value), `isEmpty()` is `true` iff `readIndex = writeIndex` iff every
successfully pushed element has been popped, and `isFull()` is `true` iff
`(writeIndex + 1) mod C = readIndex` iff exactly `C - 1` successfully pushed
elements have not been popped. -/
theorem C7_isEmpty_isFull_meaning (tr : ElemTraits T) (C : Nat) (cb : Option (T → T))
    (calls : List (Call T)) (b : SPSCBuffer T) (obs : List (Obs T))
    (h2 : 2 ≤ C) (h32 : C < 2 ^ 32)
    (hr : run tr (SPSCBuffer.construct C cb) calls = some (b, obs)) :
    (b.isEmpty = true ↔ b.readIndex_ = b.writeIndex_) ∧
    (b.readIndex_ = b.writeIndex_ ↔ (pushedOk obs).length = popsOk obs) ∧
    (b.isFull = true ↔ (b.writeIndex_ + 1) % C = b.readIndex_) ∧
    ((b.writeIndex_ + 1) % C = b.readIndex_ ↔
      (pushedOk obs).length = popsOk obs + (C - 1)) := by
  obtain ⟨h, hle, hc, _⟩ := run_reaches tr h2 h32 hr
  have hlen : ((pushedOk obs).drop (popsOk obs)).length
      = (pushedOk obs).length - popsOk obs := List.length_drop _ _
  have hfull := h.isFull_iff
  rw [u32_succ h.cap_lt h.w_lt, hc, hlen] at hfull
  refine ⟨?_, ?_, ?_, ?_⟩
  · simp [SPSCBuffer.isEmpty]
  · rw [h.isEmpty_iff, ← List.length_eq_zero, hlen]
    omega
  · rw [h.isFull_eq, decide_eq_true_iff, hfull, hc, hlen]
  · rw [hfull]
    omega

theorem C7_isEmpty_isFull_meaning_witness :
    (2 ≤ 3 ∧ 3 < 2 ^ 32) ∧
    (SPSCBuffer.isFull
        { readIndex_ := 1, writeIndex_ := 0, capacity_ := 3
          buffer_ := [none, some 2, some 3]
          callbackFunctionToCallWhilePop := (none : Option (Nat → Nat)) } = true ↔
      (0 + 1) % 3 = 1) :=
  ⟨⟨by decide, by decide⟩,
    (C7_isEmpty_isFull_meaning natTraits 3 none
      [Call.push 1, Call.push 2, Call.pop, Call.push 3]
      { readIndex_ := 1, writeIndex_ := 0, capacity_ := 3
        buffer_ := [none, some 2, some 3]
        callbackFunctionToCallWhilePop := none }
      [⟨Call.push 1, true, [], none⟩, ⟨Call.push 2, true, [], none⟩,
        ⟨Call.pop, true, [Event.destroy 1], none⟩, ⟨Call.push 3, true, [], none⟩]
      (by decide) (by decide) (by rfl)).2.2.1⟩

/-- C8: in every non-empty state reached from a fresh buffer, `pop(data)`
returns `true`, sets `data` to the element in the slot at `readIndex`, which is
the oldest successfully pushed value not yet popped, moves `readIndex` to
`(readIndex + 1) mod C`, keeps `writeIndex` and every other slot, and makes no
call of the release callback given at construction. -/
theorem C8_pop_data_delivers_oldest (tr : ElemTraits T) (C : Nat) (cb : Option (T → T))
    (calls : List (Call T)) (b : SPSCBuffer T) (obs : List (Obs T)) (d : T)
    (h2 : 2 ≤ C) (h32 : C < 2 ^ 32)
    (hr : run tr (SPSCBuffer.construct C cb) calls = some (b, obs))
    (hne : b.isEmpty = false) :
    ∃ s x, b.pop_data d = some (s, x) ∧ s.ret = true ∧
      b.buffer_[b.readIndex_]? = some (some x) ∧
      (pushedOk obs)[popsOk obs]? = some x ∧
      s.buf.readIndex_ = (b.readIndex_ + 1) % C ∧
      s.buf.writeIndex_ = b.writeIndex_ ∧
      (∀ i, i ≠ b.readIndex_ → s.buf.buffer_[i]? = b.buffer_[i]?) ∧
      (∀ y, Event.callback y ∉ s.events) := by
  obtain ⟨h, _, hc, _⟩ := run_reaches tr h2 h32 hr
  obtain ⟨x, q1, hq⟩ := h.cons_of_not_isEmpty hne
  rw [hq] at h
  obtain ⟨b1, ha, e⟩ := h.pop_data_cons d
  refine ⟨_, x, e, rfl, h.read_slot, drop_head hq, ?_, ha.writeIndex, ha.others, ?_⟩
  · rw [← hc]
    exact ha.readIndex
  · intro y hy
    simp at hy

theorem C8_pop_data_delivers_oldest_witness :
    ((2 ≤ 3 ∧ 3 < 2 ^ 32) ∧
      SPSCBuffer.isEmpty
        { readIndex_ := 1, writeIndex_ := 0, capacity_ := 3
          buffer_ := [some 11, some 2, some 3]
          callbackFunctionToCallWhilePop := some (fun x => x + 10) } = false) ∧
    ∃ s x, SPSCBuffer.pop_data
        { readIndex_ := 1, writeIndex_ := 0, capacity_ := 3
          buffer_ := [some 11, some 2, some 3]
          callbackFunctionToCallWhilePop := some (fun x => x + 10) } 0 = some (s, x) ∧
      s.ret = true ∧
      [some 11, some 2, some 3][1]? = some (some x) ∧
      [1, 2, 3][1]? = some x ∧
      s.buf.readIndex_ = (1 + 1) % 3 ∧
      s.buf.writeIndex_ = 0 ∧
      (∀ i, i ≠ 1 → s.buf.buffer_[i]? = [some 11, some 2, some 3][i]?) ∧
      (∀ y, Event.callback y ∉ s.events) :=
  ⟨⟨⟨by decide, by decide⟩, by decide⟩,
    C8_pop_data_delivers_oldest natTraits 3 (some (fun x => x + 10))
      [Call.push 1, Call.push 2, Call.pop, Call.push 3, Call.push 4]
      { readIndex_ := 1, writeIndex_ := 0, capacity_ := 3
        buffer_ := [some 11, some 2, some 3]
        callbackFunctionToCallWhilePop := some (fun x => x + 10) }
      [⟨Call.push 1, true, [], none⟩, ⟨Call.push 2, true, [], none⟩,
        ⟨Call.pop, true, [Event.callback 1], none⟩, ⟨Call.push 3, true, [], none⟩,
        ⟨Call.push 4, false, [], none⟩]
      0 (by decide) (by decide) (by rfl) (by decide)⟩

/-- C9: in every non-empty state reached from a fresh buffer constructed with a
release callback, `pop()` returns `true`, calls the release callback exactly
once, on the element in the slot at `readIndex` (the oldest successfully pushed
value not yet popped), makes no other call, moves `readIndex` to
`(readIndex + 1) mod C`, and the number of stored elements
`(writeIndex - readIndex) mod C` goes down by exactly one. -/
theorem C9_pop_releases_oldest (tr : ElemTraits T) (C : Nat) (f : T → T)
    (calls : List (Call T)) (b : SPSCBuffer T) (obs : List (Obs T))
    (h2 : 2 ≤ C) (h32 : C < 2 ^ 32)
    (hr : run tr (SPSCBuffer.construct C (some f)) calls = some (b, obs))
    (hne : b.isEmpty = false) :
    ∃ s x, b.pop tr = some s ∧ s.ret = true ∧
      s.events = [Event.callback x] ∧
      b.buffer_[b.readIndex_]? = some (some x) ∧
      (pushedOk obs)[popsOk obs]? = some x ∧
      s.buf.readIndex_ = (b.readIndex_ + 1) % C ∧
      ((s.buf.writeIndex_ : Int) - (s.buf.readIndex_ : Int)) % (C : Int)
        = ((b.writeIndex_ : Int) - (b.readIndex_ : Int)) % (C : Int) - 1 := by
  obtain ⟨h, _, hc, hcb⟩ := run_reaches tr h2 h32 hr
  obtain ⟨x, q1, hq⟩ := h.cons_of_not_isEmpty hne
  rw [hq] at h
  obtain ⟨b1, ha, e⟩ := h.pop_cons tr
  have h1 := h.advance ha
  have c0 := h.count
  have c1 := h1.count
  rw [ha.capacity] at c1
  rw [hc] at c0 c1
  refine ⟨_, x, e, rfl, ?_, h.read_slot, drop_head hq, ?_, ?_⟩
  · simp [hcb, popEvents]
  · rw [← hc]
    exact ha.readIndex
  · show ((b1.writeIndex_ : Int) - (b1.readIndex_ : Int)) % (C : Int) = _
    rw [c0, c1, List.length_cons]
    omega

theorem C9_pop_releases_oldest_witness :
    ((2 ≤ 3 ∧ 3 < 2 ^ 32) ∧
      SPSCBuffer.isEmpty
        { readIndex_ := 1, writeIndex_ := 0, capacity_ := 3
          buffer_ := [some 11, some 2, some 3]
          callbackFunctionToCallWhilePop := some (fun x => x + 10) } = false) ∧
    ∃ s x, SPSCBuffer.pop natTraits
        { readIndex_ := 1, writeIndex_ := 0, capacity_ := 3
          buffer_ := [some 11, some 2, some 3]
          callbackFunctionToCallWhilePop := some (fun x => x + 10) } = some s ∧
      s.ret = true ∧
      s.events = [Event.callback x] ∧
      [some 11, some 2, some 3][1]? = some (some x) ∧
      [1, 2, 3][1]? = some x ∧
      s.buf.readIndex_ = (1 + 1) % 3 ∧
      ((s.buf.writeIndex_ : Int) - (s.buf.readIndex_ : Int)) % ((3 : Nat) : Int)
        = (((0 : Nat) : Int) - ((1 : Nat) : Int)) % ((3 : Nat) : Int) - 1 :=
  ⟨⟨⟨by decide, by decide⟩, by decide⟩,
    C9_pop_releases_oldest natTraits 3 (fun x => x + 10)
      [Call.push 1, Call.push 2, Call.pop, Call.push 3, Call.push 4]
      { readIndex_ := 1, writeIndex_ := 0, capacity_ := 3
        buffer_ := [some 11, some 2, some 3]
        callbackFunctionToCallWhilePop := some (fun x => x + 10) }
      [⟨Call.push 1, true, [], none⟩, ⟨Call.push 2, true, [], none⟩,
        ⟨Call.pop, true, [Event.callback 1], none⟩, ⟨Call.push 3, true, [], none⟩,
        ⟨Call.push 4, false, [], none⟩]
      (by decide) (by decide) (by rfl) (by decide)⟩

/-- C10 (as amended): in every non-empty state reached from a fresh buffer,
`pop(callbackFunction)` returns `true`, moves `readIndex` to
`(readIndex + 1) mod C`, keeps `writeIndex`, and never calls the release
callback given at construction; when `callbackFunction` is a non-empty function
object it is called exactly once, on the element in the slot at `readIndex`
(the oldest successfully pushed value not yet popped), and when it is empty no
call is made at all. -/
theorem C10_pop_callbackFunction_visits_oldest (tr : ElemTraits T) (C : Nat)
    (cb : Option (T → T)) (calls : List (Call T)) (b : SPSCBuffer T) (obs : List (Obs T))
    (callbackFunction : Option (T → T))
    (h2 : 2 ≤ C) (h32 : C < 2 ^ 32)
    (hr : run tr (SPSCBuffer.construct C cb) calls = some (b, obs))
    (hne : b.isEmpty = false) :
    ∃ s x, b.pop_callbackFunction callbackFunction = some s ∧ s.ret = true ∧
      b.buffer_[b.readIndex_]? = some (some x) ∧
      (pushedOk obs)[popsOk obs]? = some x ∧
      (callbackFunction.isSome = true → s.events = [Event.visit x]) ∧
      (callbackFunction = none → s.events = []) ∧
      s.buf.readIndex_ = (b.readIndex_ + 1) % C ∧
      s.buf.writeIndex_ = b.writeIndex_ ∧
      (∀ y, Event.callback y ∉ s.events) := by
  obtain ⟨h, _, hc, _⟩ := run_reaches tr h2 h32 hr
  obtain ⟨x, q1, hq⟩ := h.cons_of_not_isEmpty hne
  rw [hq] at h
  obtain ⟨b1, ha, e⟩ := h.pop_callbackFunction_cons callbackFunction
  refine ⟨_, x, e, rfl, h.read_slot, drop_head hq, ?_, ?_, ?_, ha.writeIndex, ?_⟩
  · intro hs
    cases callbackFunction with
    | none => simp at hs
    | some g => rfl
  · intro hn
    rw [hn]
    rfl
  · rw [← hc]
    exact ha.readIndex
  · intro y hy
    cases callbackFunction with
    | none => simp [visitEvents] at hy
    | some g => simp [visitEvents] at hy

theorem C10_pop_callbackFunction_visits_oldest_witness :
    ((2 ≤ 3 ∧ 3 < 2 ^ 32) ∧
      SPSCBuffer.isEmpty
        { readIndex_ := 1, writeIndex_ := 0, capacity_ := 3
          buffer_ := [some 11, some 2, some 3]
          callbackFunctionToCallWhilePop := some (fun x => x + 10) } = false) ∧
    ∃ s x, SPSCBuffer.pop_callbackFunction
        { readIndex_ := 1, writeIndex_ := 0, capacity_ := 3
          buffer_ := [some 11, some 2, some 3]
          callbackFunctionToCallWhilePop := some (fun x => x + 10) }
        (some (fun x => x * 2)) = some s ∧
      s.ret = true ∧
      [some 11, some 2, some 3][1]? = some (some x) ∧
      [1, 2, 3][1]? = some x ∧
      ((some (fun x : Nat => x * 2)).isSome = true → s.events = [Event.visit x]) ∧
      (some (fun x : Nat => x * 2) = none → s.events = []) ∧
      s.buf.readIndex_ = (1 + 1) % 3 ∧
      s.buf.writeIndex_ = 0 ∧
      (∀ y, Event.callback y ∉ s.events) :=
  ⟨⟨⟨by decide, by decide⟩, by decide⟩,
    C10_pop_callbackFunction_visits_oldest natTraits 3 (some (fun x => x + 10))
      [Call.push 1, Call.push 2, Call.pop, Call.push 3, Call.push 4]
      { readIndex_ := 1, writeIndex_ := 0, capacity_ := 3
        buffer_ := [some 11, some 2, some 3]
        callbackFunctionToCallWhilePop := some (fun x => x + 10) }
      [⟨Call.push 1, true, [], none⟩, ⟨Call.push 2, true, [], none⟩,
        ⟨Call.pop, true, [Event.callback 1], none⟩, ⟨Call.push 3, true, [], none⟩,
        ⟨Call.push 4, false, [], none⟩]
      (some (fun x => x * 2)) (by decide) (by decide) (by rfl) (by decide)⟩

/-- C10, counterexample to the claim as stated: on the non-empty buffer reached
from a fresh buffer of capacity 2 by `push(7)`, `pop(callbackFunction)` with an
empty function object returns `true` and moves `readIndex`, but makes no call:
the visitor is not invoked once, it is not invoked at all. -/
theorem C10_empty_visitor_not_invoked :
    ∃ b obs s,
      run natTraits (SPSCBuffer.construct 2 none) [Call.push 7] = some (b, obs) ∧
      b.isEmpty = false ∧
      b.pop_callbackFunction none = some s ∧
      s.ret = true ∧ s.buf.readIndex_ = 1 ∧ s.events = [] ∧
      ¬ ∃ x, s.events = [Event.visit x] :=
  ⟨{ readIndex_ := 0, writeIndex_ := 1, capacity_ := 2, buffer_ := [some 7, none]
     callbackFunctionToCallWhilePop := none },
    [⟨Call.push 7, true, [], none⟩],
    { ret := true
      buf := { readIndex_ := 1, writeIndex_ := 1, capacity_ := 2, buffer_ := [some 7, none]
               callbackFunctionToCallWhilePop := none }
      events := [] },
    by rfl, by rfl, by rfl, rfl, rfl, rfl, by simp⟩

/-! ## `sizeGuess` and the frame of the member functions -/

theorem Holds.sizeGuess_eq {b : SPSCBuffer T} {q : List T} (h : Holds b q)
    (hC : b.capacity_ ≤ 2 ^ 31) : b.sizeGuess = q.length := by
  have hr := h.r_lt
  have hq := h.q_lt
  unfold SPSCBuffer.sizeGuess toInt32
  rw [h.w_eq, wrap_eq (by omega)]
  simp only
  split_ifs <;> omega

/-- For a capacity of at most `2 ^ 31`, `sizeGuess()` is exact in every state
reached from a fresh buffer: it returns the number of successfully pushed
elements not yet popped. -/
theorem sizeGuess_exact_of_capacity_le (tr : ElemTraits T) (C : Nat) (cb : Option (T → T))
    (calls : List (Call T)) (b : SPSCBuffer T) (obs : List (Obs T))
    (h2 : 2 ≤ C) (h31 : C ≤ 2 ^ 31)
    (hr : run tr (SPSCBuffer.construct C cb) calls = some (b, obs)) :
    b.sizeGuess = (pushedOk obs).length - popsOk obs := by
  obtain ⟨h, _, hc, _⟩ := run_reaches tr h2 (by omega) hr
  rw [h.sizeGuess_eq (by omega), List.length_drop]

theorem push_readIndex (b : SPSCBuffer T) (v : T) :
    (b.push v).buf.readIndex_ = b.readIndex_ := by
  unfold SPSCBuffer.push
  simp only
  split <;> rfl

theorem pushAll_readIndex :
    ∀ (vs : List T) (b : SPSCBuffer T), (pushAll b vs).1.readIndex_ = b.readIndex_ := by
  intro vs
  induction vs with
  | nil => intro b; rfl
  | cons v vs ih =>
    intro b
    simp only [pushAll]
    rw [ih, push_readIndex]

theorem pushAll_length : ∀ (vs : List T) (b : SPSCBuffer T),
    (pushAll b vs).2.length = vs.length := by
  intro vs
  induction vs with
  | nil => intro b; rfl
  | cons v vs ih =>
    intro b
    simp only [pushAll, List.length_cons, ih]

/-- Pushing at most `C - 1` values into a fresh buffer of capacity `C`: every
push succeeds, `readIndex_` stays 0 and `writeIndex_` is the number pushed. -/
theorem pushAll_construct (C : Nat) (cb : Option (T → T)) (vs : List T)
    (h2 : 2 ≤ C) (h32 : C < 2 ^ 32) (hl : vs.length ≤ C - 1) :
    (pushAll (SPSCBuffer.construct C cb) vs).2 = List.replicate vs.length true ∧
    (pushAll (SPSCBuffer.construct C cb) vs).1.readIndex_ = 0 ∧
    (pushAll (SPSCBuffer.construct C cb) vs).1.writeIndex_ = vs.length ∧
    (pushAll (SPSCBuffer.construct C cb) vs).1.capacity_ = C := by
  obtain ⟨h, hc, hret⟩ := pushAll_holds vs _ _ (holds_construct cb h2 h32)
  have hcap : (SPSCBuffer.construct C cb : SPSCBuffer T).capacity_ = C := rfl
  simp only [hcap, List.length_nil, Nat.sub_zero, List.nil_append, Nat.zero_add] at h hc hret
  have hr0 := pushAll_readIndex vs (SPSCBuffer.construct C cb)
  have hr1 : (SPSCBuffer.construct C cb : SPSCBuffer T).readIndex_ = 0 := rfl
  rw [hr1] at hr0
  refine ⟨?_, hr0, ?_, hc⟩
  · apply List.ext_getElem?
    intro j
    by_cases hj : j < vs.length
    · rw [hret j hj, List.getElem?_replicate]
      have : j + 1 < C := by omega
      simp [this, hj]
    · rw [List.getElem?_eq_none (by rw [pushAll_length]; omega),
        List.getElem?_eq_none (by rw [List.length_replicate]; omega)]
  · have hw := h.w_eq
    rw [hr0, hc, Nat.zero_add, List.length_take, Nat.min_eq_right hl,
      Nat.mod_eq_of_lt (by omega)] at hw
    exact hw

/-- C11, evaluated where it fails: on a fresh buffer of capacity `2 ^ 31 + 2`
(a `uint32_t` value), `2 ^ 31` consecutive pushes all return `true`, leaving
`readIndex_ = 0` and `writeIndex_ = 2 ^ 31`; the buffer then holds `2 ^ 31`
elements, yet `sizeGuess()` returns 2, because the unsigned difference
`2 ^ 31` becomes negative when stored in the signed 32-bit `ret`. -/
theorem C11_sizeGuess_wrong_above_2_pow_31 :
    (pushAll (SPSCBuffer.construct (2 ^ 31 + 2) (none : Option (Nat → Nat)))
        (List.replicate (2 ^ 31) 0)).2 = List.replicate (2 ^ 31) true ∧
    (pushAll (SPSCBuffer.construct (2 ^ 31 + 2) (none : Option (Nat → Nat)))
        (List.replicate (2 ^ 31) 0)).1.sizeGuess = 2 := by
  have hlen : (List.replicate (2 ^ 31) (0 : Nat)).length = 2 ^ 31 := List.length_replicate _ _
  obtain ⟨h1, h2, h3, h4⟩ := pushAll_construct (2 ^ 31 + 2) (none : Option (Nat → Nat))
    (List.replicate (2 ^ 31) 0) (by omega) (by omega) (by rw [hlen]; omega)
  rw [hlen] at h1 h3
  refine ⟨h1, ?_⟩
  unfold SPSCBuffer.sizeGuess toInt32
  rw [h2, h3, h4]
  decide

/-- C12: in every state (reachable or not) `push` leaves `readIndex_` as it was,
whether it returns `true` or `false`, and each of `pop()`, `pop(data)` and
`pop(callbackFunction)`, whenever it returns, leaves `writeIndex_` as it was.
The members `isEmpty()`, `isFull()`, `sizeGuess()` and `capacity()` are `const`:
they are embedded as functions from the state to the returned value and have
no state to hand back. -/
theorem C12_push_keeps_readIndex_pop_keeps_writeIndex (tr : ElemTraits T)
    (b : SPSCBuffer T) :
    (∀ v, (b.push v).buf.readIndex_ = b.readIndex_) ∧
    (∀ s, b.pop tr = some s → s.buf.writeIndex_ = b.writeIndex_) ∧
    (∀ d s d1, b.pop_data d = some (s, d1) → s.buf.writeIndex_ = b.writeIndex_) ∧
    (∀ g s, b.pop_callbackFunction g = some s → s.buf.writeIndex_ = b.writeIndex_) := by
  refine ⟨push_readIndex b, ?_, ?_, ?_⟩
  · intro s hs
    unfold SPSCBuffer.pop at hs
    simp only at hs
    split at hs
    · cases hs; rfl
    · split at hs
      · split at hs
        · cases hs; rfl
        · split at hs <;> (cases hs; rfl)
      · cases hs
  · intro d s d1 hs
    unfold SPSCBuffer.pop_data at hs
    simp only at hs
    split at hs
    · cases hs; rfl
    · split at hs
      · cases hs; rfl
      · cases hs
  · intro g s hs
    unfold SPSCBuffer.pop_callbackFunction at hs
    simp only at hs
    split at hs
    · cases hs; rfl
    · split at hs
      · split at hs
        · cases hs; rfl
        · cases hs
      · cases hs; rfl

theorem C12_push_keeps_readIndex_pop_keeps_writeIndex_witness :
    SPSCBuffer.pop_data
        { readIndex_ := 1, writeIndex_ := 0, capacity_ := 3
          buffer_ := [some 11, some 2, some 3]
          callbackFunctionToCallWhilePop := (none : Option (Nat → Nat)) } 0
      = some ({ ret := true
                buf := { readIndex_ := 2, writeIndex_ := 0, capacity_ := 3
                         buffer_ := [some 11, none, some 3]
                         callbackFunctionToCallWhilePop := none }
                events := [Event.destroyMoved] }, 2) ∧
    (0 : Nat) = 0 :=
  ⟨by rfl,
    (C12_push_keeps_readIndex_pop_keeps_writeIndex natTraits
      { readIndex_ := 1, writeIndex_ := 0, capacity_ := 3
        buffer_ := [some 11, some 2, some 3]
        callbackFunctionToCallWhilePop := none }).2.2.1 0
      { ret := true
        buf := { readIndex_ := 2, writeIndex_ := 0, capacity_ := 3
                 buffer_ := [some 11, none, some 3]
                 callbackFunctionToCallWhilePop := none }
        events := [Event.destroyMoved] } 2 (by rfl)⟩

/-! ## Detection backends: strips and regions -/

/-! ### Single-precision rounding -/

theorem desiredWidth_eq_ediv {W N : Int} (hW : 0 ≤ W) (hN : 0 ≤ N) :
    Yolo.desiredWidth W N = W / N := by
  unfold Yolo.desiredWidth
  exact Int.tdiv_eq_ediv hW hN

theorem desiredWidth_bounds {W N : Int} (hW : 0 ≤ W) (hN : 1 ≤ N) :
    0 ≤ Yolo.desiredWidth W N ∧ N * Yolo.desiredWidth W N ≤ W ∧
      W < N * Yolo.desiredWidth W N + N := by
  rw [desiredWidth_eq_ediv hW (by omega)]
  have h1 : 0 ≤ W / N := Int.ediv_nonneg hW (by omega)
  have h2 : N * (W / N) ≤ W := Int.mul_ediv_self_le (by omega)
  have h3 : W < N * (W / N) + N := Int.lt_mul_ediv_self_add (by omega)
  exact ⟨h1, h2, h3⟩

theorem endX_eq_of_lt {W N p : Int} (hW : 0 ≤ W) (hN : 1 ≤ N) (hp : p < N) :
    Yolo.endX p (Yolo.desiredWidth W N) W = (p + 1) * Yolo.desiredWidth W N := by
  obtain ⟨h0, h1, _⟩ := desiredWidth_bounds hW hN
  unfold Yolo.endX
  have hle : (p + 1) * Yolo.desiredWidth W N ≤ N * Yolo.desiredWidth W N :=
    Int.mul_le_mul_of_nonneg_right (by omega) h0
  rw [if_neg (by omega)]

/-- C14 (as amended): for every image width `W ≥ 1` and partition count
`N ≥ 1`, the strips `[startX p, endX p)` that `Yolo::detect` computes for
`p = 0, …, N - 1` are adjacent (the end of strip `p` is the start of strip
`p + 1`), pairwise disjoint, and together contain exactly the columns
`0 ≤ c < N * (W / N)`; this is every column of the image iff `N` divides `W`,
otherwise the last `W mod N` columns lie in no strip. -/
theorem C14_strips_adjacent_disjoint (W N : Int) (hW : 1 ≤ W) (hN : 1 ≤ N) :
    (∀ p, 0 ≤ p → p + 1 < N →
      Yolo.endX p (Yolo.desiredWidth W N) W = Yolo.startX (p + 1) (Yolo.desiredWidth W N)) ∧
    (∀ p q, 0 ≤ p → p < q → q < N →
      Yolo.endX p (Yolo.desiredWidth W N) W ≤ Yolo.startX q (Yolo.desiredWidth W N)) ∧
    (∀ c, (∃ p, 0 ≤ p ∧ p < N ∧ Yolo.startX p (Yolo.desiredWidth W N) ≤ c ∧
            c < Yolo.endX p (Yolo.desiredWidth W N) W)
          ↔ (0 ≤ c ∧ c < N * Yolo.desiredWidth W N)) ∧
    N * Yolo.desiredWidth W N = W - W % N ∧
    (N * Yolo.desiredWidth W N = W ↔ N ∣ W) := by
  obtain ⟨h0, h1, h2⟩ := desiredWidth_bounds (by omega : (0 : Int) ≤ W) hN
  have hd := desiredWidth_eq_ediv (by omega : (0 : Int) ≤ W) (by omega : (0 : Int) ≤ N)
  have hmod : N * Yolo.desiredWidth W N = W - W % N := by
    rw [hd]
    have := Int.emod_add_ediv W N
    omega
  refine ⟨?_, ?_, ?_, hmod, ?_⟩
  · intro p _ hp
    rw [endX_eq_of_lt (by omega) hN (by omega)]
    rfl
  · intro p q _ hpq hq
    rw [endX_eq_of_lt (by omega) hN (by omega)]
    unfold Yolo.startX
    exact Int.mul_le_mul_of_nonneg_right (by omega) h0
  · intro c
    constructor
    · rintro ⟨p, hp0, hpN, hs, he⟩
      rw [endX_eq_of_lt (by omega) hN hpN] at he
      unfold Yolo.startX at hs
      have hs0 : 0 ≤ p * Yolo.desiredWidth W N := Int.mul_nonneg hp0 h0
      have hle : (p + 1) * Yolo.desiredWidth W N ≤ N * Yolo.desiredWidth W N :=
        Int.mul_le_mul_of_nonneg_right (by omega) h0
      exact ⟨by omega, by omega⟩
    · rintro ⟨hc0, hcN⟩
      have hdpos : 0 < Yolo.desiredWidth W N := by
        by_contra h
        have hz : Yolo.desiredWidth W N = 0 := by omega
        rw [hz] at hcN
        omega
      refine ⟨c / Yolo.desiredWidth W N, Int.ediv_nonneg hc0 h0, ?_, ?_, ?_⟩
      · apply Int.ediv_lt_of_lt_mul hdpos
        exact hcN
      · unfold Yolo.startX
        exact Int.ediv_mul_le c (by omega)
      · have hq : c / Yolo.desiredWidth W N < N := Int.ediv_lt_of_lt_mul hdpos hcN
        rw [endX_eq_of_lt (by omega) hN hq]
        exact Int.lt_ediv_add_one_mul_self c hdpos
  · rw [hmod]
    constructor
    · intro h
      exact Int.dvd_of_emod_eq_zero (by omega)
    · intro h
      have := Int.emod_eq_zero_of_dvd h
      omega

theorem C14_strips_adjacent_disjoint_witness :
    ((1 : Int) ≤ 10 ∧ (1 : Int) ≤ 3) ∧
    3 * Yolo.desiredWidth 10 3 = 10 - 10 % 3 :=
  ⟨⟨by decide, by decide⟩,
    (C14_strips_adjacent_disjoint 10 3 (by decide) (by decide)).2.2.2.1⟩

/-- C14, counterexample to the claim as stated: for an image 10 columns wide
cut into 3 strips the strip width is 3, the strips are `[0,3)`, `[3,6)`,
`[6,9)`, and column 9 of the image lies in none of them. -/
theorem C14_last_column_uncovered :
    Yolo.desiredWidth 10 3 = 3 ∧
    ¬ ∃ p : Int, 0 ≤ p ∧ p < 3 ∧ Yolo.startX p (Yolo.desiredWidth 10 3) ≤ 9 ∧
        9 < Yolo.endX p (Yolo.desiredWidth 10 3) 10 := by
  have e : Yolo.desiredWidth 10 3 = 3 := by decide
  refine ⟨e, ?_⟩
  rintro ⟨p, h0, h3, hs, he⟩
  rw [e] at hs he
  unfold Yolo.endX at he
  unfold Yolo.startX at hs
  split at he <;> omega

/-! ## Detection backends: configuration -/

/-- C15 (as amended): with the `.cfg` file present, whenever the check of
`weightFile` does not report an existing regular file, `Yolo::configuration`
returns `false` leaving `net` and `noOfClass` as they were (so that with `net`
null a subsequent `detect` returns `false` with `DetectionError`, its outputs
untouched).  When the check reports the file as absent or not regular, Yolo
records `FileNotFound` with the message `.weight file not found` and Onnx
returns `false` with the same error, changing nothing but `errorDetails`.  When
the check itself throws, Yolo records `ConfigurationError` with the message of
the exception, and Onnx, for a `std::exception`, returns `false` through its
handler with an error code other than `NoError`, `net_` and `names` as
before. -/
theorem C15_missing_weights_file (w : World) (s : Yolo) (o : Onnx)
    (parameters : DetectionConfigurationParameter)
    (partitionPara : PartitionDetectionConfigurationParameter)
    (cols rows : Int) (objectInfoList : ObjectInfoList) (objectCount : Int)
    (hc : fileExists w parameters.cfgFile = Except.ok true) :
    (fileExists w parameters.weightFile = Except.ok false →
      Yolo.configuration w s parameters partitionPara
        = (false, { s with nms := parameters.nms, thresh := parameters.thresh
                           threshHeir := parameters.threshHeir
                           errorDetails := { errorcode := ErrorCode.FileNotFound
                                             errormsg := ".weight file not found" } }) ∧
      Onnx.configuration w o parameters partitionPara
        = some (false, { o with errorDetails :=
            { errorcode := ErrorCode.FileNotFound, errormsg := ".weight file not found" } })) ∧
    (∀ t : Thrown, fileExists w parameters.weightFile = Except.error t →
      Yolo.configuration w s parameters partitionPara
        = (false, { s with nms := parameters.nms, thresh := parameters.thresh
                           threshHeir := parameters.threshHeir
                           errorDetails := { errorcode := ErrorCode.ConfigurationError
                                             errormsg := t.message } }) ∧
      (∀ what : String, t = Thrown.std_exception what →
        ∃ o1, Onnx.configuration w o parameters partitionPara = some (false, o1) ∧
          o1.net_ = o.net_ ∧ o1.names = o.names ∧
          o1.errorDetails.errorcode ≠ ErrorCode.NoError)) ∧
    (fileExists w parameters.weightFile ≠ Except.ok true →
      (Yolo.configuration w s parameters partitionPara).1 = false ∧
      (Yolo.configuration w s parameters partitionPara).2.net = s.net ∧
      (Yolo.configuration w s parameters partitionPara).2.noOfClass = s.noOfClass ∧
      (s.net = none →
        ∃ s1, Yolo.detect w (Yolo.configuration w s parameters partitionPara).2 cols rows
            objectInfoList objectCount = some (false, s1, objectInfoList, objectCount) ∧
          s1.errorDetails.errorcode = ErrorCode.DetectionError)) := by
  have hA : fileExists w parameters.weightFile = Except.ok false →
      Yolo.configuration w s parameters partitionPara
        = (false, { s with nms := parameters.nms, thresh := parameters.thresh
                           threshHeir := parameters.threshHeir
                           errorDetails := { errorcode := ErrorCode.FileNotFound
                                             errormsg := ".weight file not found" } }) := by
    intro hw
    unfold Yolo.configuration
    simp only [hc, hw]
  have hB : ∀ t : Thrown, fileExists w parameters.weightFile = Except.error t →
      Yolo.configuration w s parameters partitionPara
        = (false, { s with nms := parameters.nms, thresh := parameters.thresh
                           threshHeir := parameters.threshHeir
                           errorDetails := { errorcode := ErrorCode.ConfigurationError
                                             errormsg := t.message } }) := by
    intro t hw
    unfold Yolo.configuration
    simp only [hc, hw]
  refine ⟨fun hw => ⟨hA hw, ?_⟩, fun t hw => ⟨hB t hw, ?_⟩, ?_⟩
  · unfold Onnx.configuration
    simp only [hw]
  · intro what ht
    subst ht
    refine ⟨{ o with errorDetails :=
      { errorcode := ErrorCode.DetectionError, errormsg := what } }, ?_, rfl, rfl, ?_⟩
    · unfold Onnx.configuration
      simp only [hw]
    · simp
  · intro hne
    have hcases : (Yolo.configuration w s parameters partitionPara).1 = false ∧
        (Yolo.configuration w s parameters partitionPara).2.net = s.net ∧
        (Yolo.configuration w s parameters partitionPara).2.noOfClass = s.noOfClass := by
      cases hw : fileExists w parameters.weightFile with
      | error t => rw [hB t hw]; exact ⟨rfl, rfl, rfl⟩
      | ok b =>
        cases b with
        | false => rw [hA hw]; exact ⟨rfl, rfl, rfl⟩
        | true => exact absurd hw hne
    refine ⟨hcases.1, hcases.2.1, hcases.2.2, ?_⟩
    intro hn
    have hnet := hcases.2.1
    rw [hn] at hnet
    unfold Yolo.detect
    rw [hnet]
    exact ⟨_, rfl, rfl⟩

theorem C15_missing_weights_file_witness :
    fileExists (worldWithout "weights") exampleParameters.cfgFile = Except.ok true ∧
    fileExists (worldWithout "weights") exampleParameters.weightFile = Except.ok false ∧
    Onnx.configuration (worldWithout "weights") (Onnx.construct 0) exampleParameters noPartition
      = some (false, { Onnx.construct 0 with errorDetails :=
          { errorcode := ErrorCode.FileNotFound, errormsg := ".weight file not found" } }) :=
  ⟨by rfl, by rfl,
    ((C15_missing_weights_file (worldWithout "weights") Yolo.construct (Onnx.construct 0)
      exampleParameters noPartition 0 0 (fun _ => []) 0 (by rfl)).1 (by rfl)).2⟩

/-- The name of 300 letters has 300 characters. -/
theorem nameTooLong_length : nameTooLong.length = 300 := by
  unfold nameTooLong
  rw [String.length_mk]
  exact List.length_replicate _ _

/-- In `worldNameTooLong` the file check throws on the name of 300 letters. -/
theorem fileExists_nameTooLong :
    fileExists worldNameTooLong nameTooLong
      = Except.error (Thrown.std_exception "filesystem error: status: File name too long") := by
  have h : worldNameTooLong.fs_exists nameTooLong
      = Except.error (Thrown.std_exception "filesystem error: status: File name too long") := by
    unfold worldNameTooLong
    dsimp only
    rw [nameTooLong_length]
    rfl
  unfold fileExists
  rw [h]

/-- C15, counterexample to the claim as stated: the weights file is named by
300 letters, which names no file, and `fs::exists` throws on it (the `.cfg` and
class-names files exist).  `Yolo::configuration` returns `false` with
`ConfigurationError` and `Onnx::configuration` returns `false` with
`DetectionError`: neither records `FileNotFound`. -/
theorem C15_status_query_throws :
    fileExists worldNameTooLong tooLongWeightParameters.cfgFile = Except.ok true ∧
    fileExists worldNameTooLong tooLongWeightParameters.nameFile = Except.ok true ∧
    fileExists worldNameTooLong tooLongWeightParameters.weightFile
      = Except.error (Thrown.std_exception "filesystem error: status: File name too long") ∧
    (Yolo.configuration worldNameTooLong Yolo.construct tooLongWeightParameters noPartition).1
      = false ∧
    (Yolo.configuration worldNameTooLong Yolo.construct tooLongWeightParameters
        noPartition).2.errorDetails.errorcode = ErrorCode.ConfigurationError ∧
    (∃ o, Onnx.configuration worldNameTooLong (Onnx.construct 0) tooLongWeightParameters
          noPartition = some (false, o) ∧
        o.errorDetails.errorcode = ErrorCode.DetectionError) := by
  have hc : fileExists worldNameTooLong tooLongWeightParameters.cfgFile = Except.ok true := by
    rfl
  have hw : fileExists worldNameTooLong tooLongWeightParameters.weightFile
      = Except.error (Thrown.std_exception "filesystem error: status: File name too long") :=
    fileExists_nameTooLong
  refine ⟨hc, by rfl, hw, ?_, ?_, ⟨{ Onnx.construct 0 with errorDetails :=
      { errorcode := ErrorCode.DetectionError
        errormsg := "filesystem error: status: File name too long" } }, ?_, rfl⟩⟩
  · unfold Yolo.configuration
    simp only [hc, hw]
  · unfold Yolo.configuration
    simp only [hc, hw]
  · unfold Onnx.configuration
    simp only [hw]

/-- C16 (as amended): `Yolo::configuration` checks the three files in the order
cfg, weights, names, a file being checked only when the earlier ones exist.  At
the first check that reports no existing regular file it fails with
`FileNotFound` and the message naming that file; at the first check that
throws it fails with `ConfigurationError` and the message of the exception.  In
each case the state afterwards is the state before with only the three
thresholds and `errorDetails` written: `net` and `noOfClass` are untouched and
no backend call is made, the checks coming before the network is built. -/
theorem C16_yolo_names_first_missing_file (w : World) (s : Yolo)
    (parameters : DetectionConfigurationParameter)
    (partitionPara : PartitionDetectionConfigurationParameter) :
    (fileExists w parameters.cfgFile = Except.ok false →
      Yolo.configuration w s parameters partitionPara
        = (false, { s with nms := parameters.nms, thresh := parameters.thresh
                           threshHeir := parameters.threshHeir
                           errorDetails := { errorcode := ErrorCode.FileNotFound
                                             errormsg := ".cfg file not found" } })) ∧
    (fileExists w parameters.cfgFile = Except.ok true →
      fileExists w parameters.weightFile = Except.ok false →
      Yolo.configuration w s parameters partitionPara
        = (false, { s with nms := parameters.nms, thresh := parameters.thresh
                           threshHeir := parameters.threshHeir
                           errorDetails := { errorcode := ErrorCode.FileNotFound
                                             errormsg := ".weight file not found" } })) ∧
    (fileExists w parameters.cfgFile = Except.ok true →
      fileExists w parameters.weightFile = Except.ok true →
      fileExists w parameters.nameFile = Except.ok false →
      Yolo.configuration w s parameters partitionPara
        = (false, { s with nms := parameters.nms, thresh := parameters.thresh
                           threshHeir := parameters.threshHeir
                           errorDetails := { errorcode := ErrorCode.FileNotFound
                                             errormsg := ".names file not found" } })) ∧
    (∀ t : Thrown,
      (fileExists w parameters.cfgFile = Except.error t ∨
        (fileExists w parameters.cfgFile = Except.ok true ∧
          fileExists w parameters.weightFile = Except.error t) ∨
        (fileExists w parameters.cfgFile = Except.ok true ∧
          fileExists w parameters.weightFile = Except.ok true ∧
          fileExists w parameters.nameFile = Except.error t)) →
      Yolo.configuration w s parameters partitionPara
        = (false, { s with nms := parameters.nms, thresh := parameters.thresh
                           threshHeir := parameters.threshHeir
                           errorDetails := { errorcode := ErrorCode.ConfigurationError
                                             errormsg := t.message } })) := by
  refine ⟨?_, ?_, ?_, ?_⟩
  · intro h1
    unfold Yolo.configuration
    simp only [h1]
  · intro h1 h2
    unfold Yolo.configuration
    simp only [h1, h2]
  · intro h1 h2 h3
    unfold Yolo.configuration
    simp only [h1, h2, h3]
  · intro t h
    unfold Yolo.configuration
    rcases h with h1 | ⟨h1, h2⟩ | ⟨h1, h2, h3⟩
    · simp only [h1]
    · simp only [h1, h2]
    · simp only [h1, h2, h3]

theorem C16_yolo_names_first_missing_file_witness :
    (fileExists (worldWithout "names") exampleParameters.cfgFile = Except.ok true ∧
      fileExists (worldWithout "names") exampleParameters.weightFile = Except.ok true ∧
      fileExists (worldWithout "names") exampleParameters.nameFile = Except.ok false) ∧
    Yolo.configuration (worldWithout "names") Yolo.construct exampleParameters noPartition
      = (false, { Yolo.construct with
                    nms := exampleParameters.nms, thresh := exampleParameters.thresh
                    threshHeir := exampleParameters.threshHeir
                    errorDetails := { errorcode := ErrorCode.FileNotFound
                                      errormsg := ".names file not found" } }) :=
  ⟨⟨by rfl, by rfl, by rfl⟩,
    (C16_yolo_names_first_missing_file (worldWithout "names") Yolo.construct
      exampleParameters noPartition).2.2.1 (by rfl) (by rfl) (by rfl)⟩

/-- C16, counterexample to the claim as stated: the `.cfg` and class-names
files exist and the weights file is named by 300 letters, which names no file;
`fs::exists` throws on it.  `Yolo::configuration` returns `false` with
`ConfigurationError` and the message of the exception, not with `FileNotFound`
and `.weight file not found`. -/
theorem C16_throwing_check_is_ConfigurationError :
    fileExists worldNameTooLong tooLongWeightParameters.cfgFile = Except.ok true ∧
    fileExists worldNameTooLong tooLongWeightParameters.weightFile
      = Except.error (Thrown.std_exception "filesystem error: status: File name too long") ∧
    Yolo.configuration worldNameTooLong Yolo.construct tooLongWeightParameters noPartition
      = (false, { Yolo.construct with
                    nms := tooLongWeightParameters.nms
                    thresh := tooLongWeightParameters.thresh
                    threshHeir := tooLongWeightParameters.threshHeir
                    errorDetails :=
                      { errorcode := ErrorCode.ConfigurationError
                        errormsg := "filesystem error: status: File name too long" } }) ∧
    ErrorCode.ConfigurationError ≠ ErrorCode.FileNotFound := by
  have hc : fileExists worldNameTooLong tooLongWeightParameters.cfgFile = Except.ok true := by
    rfl
  have hw : fileExists worldNameTooLong tooLongWeightParameters.weightFile
      = Except.error (Thrown.std_exception "filesystem error: status: File name too long") :=
    fileExists_nameTooLong
  refine ⟨hc, hw, ?_, by decide⟩
  unfold Yolo.configuration
  simp only [hc, hw]
  rfl

/-- With the class-names file reported missing after the checks of the other
two files have returned, `Yolo::configuration` fails closed: it returns `false`
and records `FileNotFound`. -/
theorem yolo_configuration_fails_without_names (w : World) (s : Yolo)
    (parameters : DetectionConfigurationParameter)
    (partitionPara : PartitionDetectionConfigurationParameter)
    (hc : ∃ b, fileExists w parameters.cfgFile = Except.ok b)
    (hw : ∃ b, fileExists w parameters.weightFile = Except.ok b)
    (hn : fileExists w parameters.nameFile = Except.ok false) :
    (Yolo.configuration w s parameters partitionPara).1 = false ∧
    (Yolo.configuration w s parameters partitionPara).2.errorDetails.errorcode
      = ErrorCode.FileNotFound := by
  obtain ⟨bc, hc⟩ := hc
  obtain ⟨bw, hw⟩ := hw
  unfold Yolo.configuration
  cases bc <;> cases bw <;> simp [hc, hw, hn]

/-- C17, evaluated where it fails: in a world where the weights file exists
and loads but the class-names file `names` does not exist, `Onnx::configuration`
on a fresh detector returns `true`, records `NoError` and leaves `names` empty;
`Yolo::configuration` in the same world returns `false` with `FileNotFound`. -/
theorem C17_onnx_accepts_missing_names_file :
    fileExists (worldWithout "names") exampleParameters.nameFile = Except.ok false ∧
    (∃ o, Onnx.configuration (worldWithout "names") (Onnx.construct 0) exampleParameters
          noPartition = some (true, o) ∧
        o.errorDetails = { errorcode := ErrorCode.NoError, errormsg := "" } ∧
        o.names = []) ∧
    (Yolo.configuration (worldWithout "names") Yolo.construct exampleParameters noPartition).1
      = false ∧
    (Yolo.configuration (worldWithout "names") Yolo.construct exampleParameters
        noPartition).2.errorDetails.errorcode = ErrorCode.FileNotFound := by
  refine ⟨by rfl, ⟨_, rfl, rfl, rfl⟩, ?_, ?_⟩
  · exact (yolo_configuration_fails_without_names _ _ _ _ ⟨_, by rfl⟩ ⟨_, by rfl⟩ (by rfl)).1
  · exact (yolo_configuration_fails_without_names _ _ _ _ ⟨_, by rfl⟩ ⟨_, by rfl⟩ (by rfl)).2

/-- C18, evaluated where it fails: in a world where every file exists and
building the network throws a `std::exception`, `Onnx::configuration` returns
`false` with error code `DetectionError` (its handler does not use
`ConfigurationError`), whereas `Yolo::configuration` in the same world returns
`false` with `ConfigurationError`. -/
theorem C18_onnx_reports_DetectionError :
    (fileExists worldBackendThrows exampleParameters.cfgFile = Except.ok true ∧
      fileExists worldBackendThrows exampleParameters.weightFile = Except.ok true ∧
      fileExists worldBackendThrows exampleParameters.nameFile = Except.ok true) ∧
    (∃ o, Onnx.configuration worldBackendThrows (Onnx.construct 0) exampleParameters
          noPartition = some (false, o) ∧
        o.errorDetails.errorcode = ErrorCode.DetectionError) ∧
    (Yolo.configuration worldBackendThrows Yolo.construct exampleParameters noPartition).1
      = false ∧
    (Yolo.configuration worldBackendThrows Yolo.construct exampleParameters
        noPartition).2.errorDetails.errorcode = ErrorCode.ConfigurationError := by
  refine ⟨⟨by rfl, by rfl, by rfl⟩, ⟨_, rfl, rfl⟩, rfl, rfl⟩

/-- When every file exists and building the network throws, whatever is
thrown, `Yolo::configuration` returns `false` with `ConfigurationError`. -/
theorem yolo_configuration_error_of_thrown (w : World) (s : Yolo)
    (parameters : DetectionConfigurationParameter)
    (partitionPara : PartitionDetectionConfigurationParameter)
    (hc : fileExists w parameters.cfgFile = Except.ok true)
    (hw : fileExists w parameters.weightFile = Except.ok true)
    (hn : fileExists w parameters.nameFile = Except.ok true)
    (ht : (w.parse_network_cfg_custom parameters.cfgFile).isSome = true ∨
      (w.load_weights parameters.cfgFile parameters.weightFile).isSome = true) :
    (Yolo.configuration w s parameters partitionPara).1 = false ∧
    (Yolo.configuration w s parameters partitionPara).2.errorDetails.errorcode
      = ErrorCode.ConfigurationError := by
  unfold Yolo.configuration
  simp only [hc, hw, hn]
  cases hp : w.parse_network_cfg_custom parameters.cfgFile with
  | some t => simp
  | none =>
    cases hl : w.load_weights parameters.cfgFile parameters.weightFile with
    | some t => simp
    | none => simp [hp, hl] at ht

/-- C19, evaluated where it fails: with every file present, the class-names
file holding the three lines `a`, `b`, `c` and the backend loading, one call of
`Yolo::configuration` on a fresh detector gives class count 3 and a second call
with the same arguments gives 6; one call of `Onnx::configuration` gives the
names `a, b, c` and a second call gives `a, b, c, a, b, c`.  Both calls return
`true` each time. -/
theorem C19_second_configuration_accumulates :
    (Yolo.configuration (worldWithNames ["a", "b", "c"]) Yolo.construct exampleParameters
        noPartition).1 = true ∧
    (Yolo.configuration (worldWithNames ["a", "b", "c"]) Yolo.construct exampleParameters
        noPartition).2.noOfClass = 3 ∧
    (Yolo.configuration (worldWithNames ["a", "b", "c"])
        (Yolo.configuration (worldWithNames ["a", "b", "c"]) Yolo.construct exampleParameters
          noPartition).2 exampleParameters noPartition).1 = true ∧
    (Yolo.configuration (worldWithNames ["a", "b", "c"])
        (Yolo.configuration (worldWithNames ["a", "b", "c"]) Yolo.construct exampleParameters
          noPartition).2 exampleParameters noPartition).2.noOfClass = 6 ∧
    (∃ o1 o2,
      Onnx.configuration (worldWithNames ["a", "b", "c"]) (Onnx.construct 0)
          exampleParameters noPartition = some (true, o1) ∧
      Onnx.configuration (worldWithNames ["a", "b", "c"]) o1 exampleParameters noPartition
          = some (true, o2) ∧
      o1.names = ["a", "b", "c"] ∧ o2.names = ["a", "b", "c", "a", "b", "c"]) := by
  refine ⟨rfl, rfl, rfl, rfl, _, _, rfl, rfl, rfl, rfl⟩

/-- Calling `ColorInRangeDetection::configuration` twice with the same
arguments gives the same result and state as calling it once. -/
theorem colorInRange_configuration_idempotent (s : ColorInRangeDetection)
    (parameters : ColorConfigurationParameters)
    (partitionParameter : PartitionDetectionConfigurationParameter) (height width : Int) :
    ColorInRangeDetection.configuration
        (ColorInRangeDetection.configuration s parameters partitionParameter height width).2
        parameters partitionParameter height width
      = ColorInRangeDetection.configuration s parameters partitionParameter height width :=
  rfl

theorem yolo_configuration_noOfClass (w : World) (s : Yolo)
    (parameters : DetectionConfigurationParameter)
    (partitionPara : PartitionDetectionConfigurationParameter)
    (h : (Yolo.configuration w s parameters partitionPara).1 = true) :
    (Yolo.configuration w s parameters partitionPara).2.noOfClass
      = s.noOfClass + ((w.getlines parameters.nameFile).length : Int) := by
  revert h
  unfold Yolo.configuration
  simp only
  split
  · simp
  · simp
  · split
    · simp
    · simp
    · split
      · simp
      · simp
      · split
        · simp
        · split
          · simp
          · simp

/-- C20 (as amended): after a successful `configuration` of a freshly
constructed Yolo detector, `noOfClass` equals the number of lines that
`std::getline` reads from the class-names file, empty lines included; it is
the number of non-empty lines when the file has no empty line, and a file with
the three lines `a`, `b`, `c` gives class count 3. -/
theorem C20_noOfClass_counts_every_line (w : World)
    (parameters : DetectionConfigurationParameter)
    (partitionPara : PartitionDetectionConfigurationParameter)
    (h : (Yolo.configuration w Yolo.construct parameters partitionPara).1 = true) :
    (Yolo.configuration w Yolo.construct parameters partitionPara).2.noOfClass
      = ((w.getlines parameters.nameFile).length : Int) ∧
    ((∀ l ∈ w.getlines parameters.nameFile, l ≠ "") →
      (Yolo.configuration w Yolo.construct parameters partitionPara).2.noOfClass
        = (((w.getlines parameters.nameFile).filter (fun l => l != "")).length : Int)) ∧
    (w.getlines parameters.nameFile = ["a", "b", "c"] →
      (Yolo.configuration w Yolo.construct parameters partitionPara).2.noOfClass = 3) := by
  have key := yolo_configuration_noOfClass w Yolo.construct parameters partitionPara h
  have h0 : Yolo.construct.noOfClass = 0 := rfl
  rw [h0, Int.zero_add] at key
  refine ⟨key, ?_, ?_⟩
  · intro hall
    rw [key, List.filter_eq_self.mpr]
    intro l hl
    simpa using hall l hl
  · intro hl
    rw [key, hl]
    rfl

theorem C20_noOfClass_counts_every_line_witness :
    (Yolo.configuration (worldWithNames ["a", "b", "c"]) Yolo.construct exampleParameters
        noPartition).1 = true ∧
    (Yolo.configuration (worldWithNames ["a", "b", "c"]) Yolo.construct exampleParameters
        noPartition).2.noOfClass = 3 :=
  ⟨by rfl,
    (C20_noOfClass_counts_every_line (worldWithNames ["a", "b", "c"]) exampleParameters
      noPartition (by rfl)).2.2 (by rfl)⟩

/-- C20, counterexample to the claim as stated: a class-names file with the
lines `a`, an empty line, and `b` has two non-empty lines, yet a successful
configuration of a fresh Yolo detector gives class count 3. -/
theorem C20_empty_line_is_counted :
    (Yolo.configuration (worldWithNames ["a", "", "b"]) Yolo.construct exampleParameters
        noPartition).1 = true ∧
    (Yolo.configuration (worldWithNames ["a", "", "b"]) Yolo.construct exampleParameters
        noPartition).2.noOfClass = 3 ∧
    ((["a", "", "b"] : List String).filter (fun l => l != "")).length = 2 := by
  refine ⟨rfl, rfl, by decide⟩

/-! ## Detection backends: the result loops -/

theorem entryFor_succ_of_ne {thresh : ℚ} {k : Nat} {j : Int} {rd : Rect × Detection}
    (h : j ≠ (k : Int)) :
    Yolo.entryFor thresh ((k + 1 : Nat) : Int) j rd = Yolo.entryFor thresh (k : Int) j rd := by
  unfold Yolo.entryFor
  have e : (j < ((k + 1 : Nat) : Int)) ↔ (j < (k : Int)) := by omega
  simp only [e]

theorem entryFor_self_none {thresh : ℚ} {k : Nat} {rd : Rect × Detection} :
    Yolo.entryFor thresh (k : Int) (k : Int) rd = none := by
  unfold Yolo.entryFor
  simp

theorem entryFor_toNat {thresh : ℚ} {n j : Int} {rd : Rect × Detection} :
    Yolo.entryFor thresh ((n.toNat : Nat) : Int) j rd = Yolo.entryFor thresh n j rd := by
  unfold Yolo.entryFor
  by_cases h0 : 0 ≤ j
  · have e : (j < ((n.toNat : Nat) : Int)) ↔ (j < n) := by omega
    simp only [e]
  · simp [h0]

theorem storeBox_range (thresh : ℚ) (region : Rect) (d : Detection) :
    ∀ (k : Nat) (acc : ObjectInfoList × Int),
      (∀ j, (Yolo.storeBox thresh (k : Int) region d acc).1 j
          = acc.1 j ++ (Yolo.entryFor thresh (k : Int) j (region, d)).toList) ∧
      (Yolo.storeBox thresh (k : Int) region d acc).2
          = acc.2 + (Yolo.hits thresh (k : Int) d : Int) := by
  intro k
  induction k with
  | zero =>
    intro acc
    refine ⟨fun j => ?_, ?_⟩
    · have : Yolo.entryFor thresh ((0 : Nat) : Int) j (region, d) = none := by
        unfold Yolo.entryFor
        have e : ¬ (0 ≤ j ∧ j < ((0 : Nat) : Int) ∧ d.prob j.toNat > thresh) := by omega
        simp only [e, if_false]
      rw [this]
      simp [Yolo.storeBox]
    · simp [Yolo.storeBox, Yolo.hits]
  | succ k ih =>
    intro acc
    obtain ⟨ih1, ih2⟩ := ih acc
    have hstep : Yolo.storeBox thresh ((k + 1 : Nat) : Int) region d acc
        = (if d.prob k > thresh then
            ((Yolo.storeBox thresh (k : Int) region d acc).1.push_back (k : Int)
                (region, d.prob k),
              (Yolo.storeBox thresh (k : Int) region d acc).2 + 1)
          else Yolo.storeBox thresh (k : Int) region d acc) := by
      unfold Yolo.storeBox
      simp only [Int.toNat_ofNat, List.range_succ, List.foldl_append, List.foldl_cons,
        List.foldl_nil]
    have hhits : Yolo.hits thresh ((k + 1 : Nat) : Int) d
        = Yolo.hits thresh (k : Int) d + (if d.prob k > thresh then 1 else 0) := by
      unfold Yolo.hits
      simp only [Int.toNat_ofNat, List.range_succ, List.filter_append, List.length_append]
      by_cases hp : d.prob k > thresh <;> simp [hp]
    rw [hstep, hhits]
    by_cases hp : d.prob k > thresh
    · simp only [hp, if_true]
      refine ⟨fun j => ?_, ?_⟩
      · unfold ObjectInfoList.push_back
        by_cases hj : j = (k : Int)
        · subst hj
          have e1 : Yolo.entryFor thresh ((k + 1 : Nat) : Int) (k : Int) (region, d)
              = some (region, d.prob k) := by
            unfold Yolo.entryFor
            have c : (0 : Int) ≤ (k : Int) ∧ (k : Int) < ((k + 1 : Nat) : Int) ∧
                d.prob ((k : Int)).toNat > thresh := by
              refine ⟨by omega, by omega, ?_⟩
              simpa using hp
            rw [if_pos c]
            simp
          rw [if_pos rfl, ih1, entryFor_self_none, e1]
          simp
        · rw [if_neg hj, ih1, entryFor_succ_of_ne hj]
      · rw [ih2]
        push_cast
        omega
    · simp only [hp, if_false]
      refine ⟨fun j => ?_, ?_⟩
      · rw [ih1]
        by_cases hj : j = (k : Int)
        · subst hj
          have e1 : Yolo.entryFor thresh ((k + 1 : Nat) : Int) (k : Int) (region, d) = none := by
            unfold Yolo.entryFor
            have c : ¬ ((0 : Int) ≤ (k : Int) ∧ (k : Int) < ((k + 1 : Nat) : Int) ∧
                d.prob ((k : Int)).toNat > thresh) := by
              intro hc
              apply hp
              simpa using hc.2.2
            rw [if_neg c]
          rw [entryFor_self_none, e1]
        · rw [entryFor_succ_of_ne hj]
      · rw [ih2]
        simp

theorem storeBox_spec (thresh : ℚ) (n : Int) (region : Rect) (d : Detection)
    (acc : ObjectInfoList × Int) :
    (∀ j, (Yolo.storeBox thresh n region d acc).1 j
        = acc.1 j ++ (Yolo.entryFor thresh n j (region, d)).toList) ∧
    (Yolo.storeBox thresh n region d acc).2 = acc.2 + (Yolo.hits thresh n d : Int) := by
  have h := storeBox_range thresh region d n.toNat acc
  have e1 : Yolo.storeBox thresh ((n.toNat : Nat) : Int) region d acc
      = Yolo.storeBox thresh n region d acc := by
    unfold Yolo.storeBox
    simp only [Int.toNat_ofNat]
  have e2 : Yolo.hits thresh ((n.toNat : Nat) : Int) d = Yolo.hits thresh n d := by
    unfold Yolo.hits
    simp only [Int.toNat_ofNat]
  rw [e1, e2] at h
  refine ⟨fun j => ?_, h.2⟩
  rw [h.1 j, entryFor_toNat]

theorem filterMap_cons_toList {α β : Type} (g : α → Option β) (a : α) (l : List α) :
    (a :: l).filterMap g = (g a).toList ++ l.filterMap g := by
  rw [List.filterMap_cons]
  cases g a <;> rfl

theorem storeBoxes_spec (thresh : ℚ) (n : Int) (region : Box → Rect) :
    ∀ (detections : List Detection) (acc : ObjectInfoList × Int),
      (∀ j, (Yolo.storeBoxes thresh n region detections acc).1 j
          = acc.1 j ++ (detections.map (fun d => (region d.bbox, d))).filterMap
              (Yolo.entryFor thresh n j)) ∧
      (Yolo.storeBoxes thresh n region detections acc).2
          = acc.2 + (Yolo.hitsAll thresh n
              (detections.map (fun d => (region d.bbox, d))) : Int) := by
  intro detections
  induction detections with
  | nil =>
    intro acc
    simp [Yolo.storeBoxes, Yolo.hitsAll]
  | cons d ds ih =>
    intro acc
    obtain ⟨s1, s2⟩ := storeBox_spec thresh n (region d.bbox) d acc
    obtain ⟨i1, i2⟩ := ih (Yolo.storeBox thresh n (region d.bbox) d acc)
    have hstep : Yolo.storeBoxes thresh n region (d :: ds) acc
        = Yolo.storeBoxes thresh n region ds (Yolo.storeBox thresh n (region d.bbox) d acc) := by
      simp [Yolo.storeBoxes]
    rw [hstep]
    refine ⟨fun j => ?_, ?_⟩
    · rw [i1 j, s1 j, List.map_cons, filterMap_cons_toList, List.append_assoc]
    · rw [i2, s2]
      simp only [Yolo.hitsAll, List.map_cons, List.sum_cons, List.map_map]
      push_cast
      omega

theorem hitsAll_append (thresh : ℚ) (n : Int) (a b : List (Rect × Detection)) :
    Yolo.hitsAll thresh n (a ++ b) = Yolo.hitsAll thresh n a + Yolo.hitsAll thresh n b := by
  simp [Yolo.hitsAll]

theorem detectPartitions_spec (w : World) (s : Yolo) (W H dw : Int) :
    ∀ (parts : List Int) (acc : ObjectInfoList × Int),
      (∀ j, (Yolo.detectPartitions w s W H dw parts acc).2.1 j
          = acc.1 j ++ (Yolo.visitedPartitions w s W H dw parts).filterMap
              (Yolo.entryFor s.thresh s.noOfClass j)) ∧
      (Yolo.detectPartitions w s W H dw parts acc).2.2
          = acc.2 + (Yolo.hitsAll s.thresh s.noOfClass
              (Yolo.visitedPartitions w s W H dw parts) : Int) := by
  intro parts
  induction parts with
  | nil =>
    intro acc
    simp [Yolo.detectPartitions, Yolo.visitedPartitions, Yolo.hitsAll]
  | cons part rest ih =>
    intro acc
    unfold Yolo.detectPartitions Yolo.visitedPartitions
    simp only
    cases hcv : w.cv_portion W H (Yolo.roiRect part dw W H) with
    | some t => simp [Yolo.hitsAll]
    | none =>
      simp only
      obtain ⟨b1, b2⟩ := storeBoxes_spec s.thresh s.noOfClass
        (Yolo.regionPartition w (Yolo.startX part dw) (Yolo.roiRect part dw W H).width
          (Yolo.roiRect part dw W H).height)
        (if s.nms ≠ 0 then
            w.do_nms_sort (w.get_network_boxes (Yolo.roiRect part dw W H)) s.noOfClass s.nms
          else w.get_network_boxes (Yolo.roiRect part dw W H)) acc
      obtain ⟨i1, i2⟩ := ih (Yolo.storeBoxes s.thresh s.noOfClass
        (Yolo.regionPartition w (Yolo.startX part dw) (Yolo.roiRect part dw W H).width
          (Yolo.roiRect part dw W H).height)
        (if s.nms ≠ 0 then
            w.do_nms_sort (w.get_network_boxes (Yolo.roiRect part dw W H)) s.noOfClass s.nms
          else w.get_network_boxes (Yolo.roiRect part dw W H)) acc)
      refine ⟨fun j => ?_, ?_⟩
      · rw [i1 j, b1 j, List.filterMap_append, List.append_assoc]
      · rw [i2, b2, hitsAll_append]
        push_cast
        omega

/-- What a call of `Yolo::detect` that returns does to its two outputs: under
every class `j` it appends, for the visited boxes in order, the entries of
those with `0 ≤ j < noOfClass` and `prob[j] > thresh`, and it adds the number
of such (box, class) pairs to `objectCount`. -/
theorem detect_spec (w : World) (s : Yolo) (cols rows : Int) (m : ObjectInfoList) (c : Int)
    {ret : Bool} {s1 : Yolo} {m1 : ObjectInfoList} {c1 : Int}
    (h : Yolo.detect w s cols rows m c = some (ret, s1, m1, c1)) :
    (∀ j, m1 j = m j ++ (Yolo.visited w s cols rows).filterMap
        (Yolo.entryFor s.thresh s.noOfClass j)) ∧
    c1 = c + (Yolo.hitsAll s.thresh s.noOfClass (Yolo.visited w s cols rows) : Int) := by
  unfold Yolo.detect at h
  unfold Yolo.visited
  cases hnet : s.net with
  | none =>
    rw [hnet] at h
    simp only [Option.some.injEq, Prod.mk.injEq] at h
    obtain ⟨_, _, rfl, rfl⟩ := h
    simp [Yolo.hitsAll]
  | some nw =>
    rw [hnet] at h
    simp only at h ⊢
    by_cases hf : s.partitionParameter.partitionFlag = true
    · simp only [hf, if_true] at h ⊢
      by_cases hz : s.partitionParameter.numberOfPartitions = 0
      · simp [hz] at h
      · simp only [hz, if_false] at h
        obtain ⟨p1, p2⟩ := detectPartitions_spec w s cols rows
          (Yolo.desiredWidth cols s.partitionParameter.numberOfPartitions)
          s.partitionParameter.partitionToDetect (m, c)
        split at h
        · simp only [Option.some.injEq, Prod.mk.injEq] at h
          obtain ⟨_, _, rfl, rfl⟩ := h
          exact ⟨p1, p2⟩
        · simp only [Option.some.injEq, Prod.mk.injEq] at h
          obtain ⟨_, _, rfl, rfl⟩ := h
          exact ⟨p1, p2⟩
    · simp only [hf, if_false] at h ⊢
      cases hcv : w.cv_portion cols rows { x := 0, y := 0, width := cols, height := rows } with
      | some t =>
        rw [hcv] at h
        simp only [Option.some.injEq, Prod.mk.injEq] at h
        obtain ⟨_, _, rfl, rfl⟩ := h
        simp [Yolo.hitsAll]
      | none =>
        rw [hcv] at h
        simp only [Option.some.injEq, Prod.mk.injEq] at h
        obtain ⟨_, _, rfl, rfl⟩ := h
        exact storeBoxes_spec s.thresh s.noOfClass (Yolo.regionWhole w cols rows) _ (m, c)

theorem entryFor_length_of_lt {thresh : ℚ} {n : Int} {i : Nat} (rd : Rect × Detection)
    (hi : i < n.toNat) :
    ((Yolo.entryFor thresh n (i : Int) rd).toList).length
      = if rd.2.prob i > thresh then 1 else 0 := by
  unfold Yolo.entryFor
  have h1 : (0 : Int) ≤ (i : Int) := by omega
  have h2 : (i : Int) < n := by omega
  by_cases hp : rd.2.prob i > thresh
  · have c : (0 : Int) ≤ (i : Int) ∧ (i : Int) < n ∧ rd.2.prob ((i : Int)).toNat > thresh :=
      ⟨h1, h2, by simpa using hp⟩
    rw [if_pos c, if_pos hp]
    rfl
  · have c : ¬ ((0 : Int) ≤ (i : Int) ∧ (i : Int) < n ∧
        rd.2.prob ((i : Int)).toNat > thresh) := by
      intro hc
      apply hp
      simpa using hc.2.2
    rw [if_neg c, if_neg hp]
    rfl

theorem sum_entryFor_eq_hits (thresh : ℚ) (n : Int) (rd : Rect × Detection) :
    ∀ (l : List Nat), (∀ i ∈ l, i < n.toNat) →
      (l.map (fun (i : Nat) => ((Yolo.entryFor thresh n (i : Int) rd).toList).length)).sum
        = (l.filter (fun i => decide (rd.2.prob i > thresh))).length := by
  intro l
  induction l with
  | nil => intro _; rfl
  | cons a l ih =>
    intro hl
    have ha := hl a (List.mem_cons_self _ _)
    have ih1 := ih (fun i hi => hl i (List.mem_cons_of_mem _ hi))
    rw [List.map_cons, List.sum_cons, ih1, entryFor_length_of_lt rd ha]
    by_cases hp : rd.2.prob a > thresh
    · simp [hp, List.filter_cons]
      omega
    · simp [hp, List.filter_cons]

theorem sum_filterMap_eq_hitsAll (thresh : ℚ) (n : Int) :
    ∀ (vs : List (Rect × Detection)),
      ((List.range n.toNat).map
          (fun (i : Nat) => (vs.filterMap (Yolo.entryFor thresh n (i : Int))).length)).sum
        = Yolo.hitsAll thresh n vs := by
  intro vs
  induction vs with
  | nil => simp [Yolo.hitsAll]
  | cons rd vs ih =>
    have e : (fun i : Nat => ((rd :: vs).filterMap (Yolo.entryFor thresh n (i : Int))).length)
        = (fun i : Nat => ((Yolo.entryFor thresh n (i : Int) rd).toList).length
            + (vs.filterMap (Yolo.entryFor thresh n (i : Int))).length) := by
      funext i
      rw [filterMap_cons_toList, List.length_append]
    rw [e, List.sum_map_add, ih,
      sum_entryFor_eq_hits thresh n rd _ (fun i hi => List.mem_range.mp hi)]
    simp [Yolo.hitsAll, Yolo.hits]

theorem entriesIn_of_appended (thresh : ℚ) (n : Int) (vs : List (Rect × Detection))
    (m m1 : ObjectInfoList)
    (h : ∀ j, m1 j = m j ++ vs.filterMap (Yolo.entryFor thresh n j)) :
    entriesIn m1 n = entriesIn m n + Yolo.hitsAll thresh n vs := by
  unfold entriesIn
  have e : (fun i : Nat => (m1 (i : Int)).length)
      = (fun i : Nat => (m (i : Int)).length
          + (vs.filterMap (Yolo.entryFor thresh n (i : Int))).length) := by
    funext i
    rw [h, List.length_append]
  rw [e, List.sum_map_add, sum_filterMap_eq_hitsAll]

theorem entryFor_none_of_outside {thresh : ℚ} {n j : Int} (rd : Rect × Detection)
    (hj : ¬ (0 ≤ j ∧ j < n)) : Yolo.entryFor thresh n j rd = none := by
  unfold Yolo.entryFor
  have c : ¬ (0 ≤ j ∧ j < n ∧ rd.2.prob j.toNat > thresh) := fun hc => hj ⟨hc.1, hc.2.1⟩
  rw [if_neg c]

theorem filterMap_entryFor_outside {thresh : ℚ} {n j : Int} (vs : List (Rect × Detection))
    (hj : ¬ (0 ≤ j ∧ j < n)) : vs.filterMap (Yolo.entryFor thresh n j) = [] := by
  induction vs with
  | nil => rfl
  | cons rd vs ih => rw [filterMap_cons_toList, ih, entryFor_none_of_outside rd hj]; rfl

theorem colorLoop_spec (s : ColorInRangeDetection) :
    ∀ (contours : List Contour) (acc : Int × List Rect),
      ∃ added : List Rect,
        (ColorInRangeDetection.detectLoop s contours acc).2.2 = acc.2 ++ added ∧
        (ColorInRangeDetection.detectLoop s contours acc).2.1 = acc.1 + (added.length : Int) ∧
        ∀ r ∈ added, ∃ c ∈ contours, r = c.boundingRect ∧
          (s.parameter.maxContourSize : ℚ) ≥ c.contourArea ∧
          (s.parameter.minContourSize : ℚ) ≤ c.contourArea ∧
          c.boundingRect.width ≥ s.widthPix ∧ c.boundingRect.height > s.heightPix := by
  intro contours
  induction contours with
  | nil =>
    intro acc
    exact ⟨[], by simp [ColorInRangeDetection.detectLoop],
      by simp [ColorInRangeDetection.detectLoop], by simp⟩
  | cons c rest ih =>
    intro acc
    unfold ColorInRangeDetection.detectLoop
    cases hd : c.draw with
    | some t => exact ⟨[], by simp, by simp, by simp⟩
    | none =>
      simp only
      by_cases ha : (s.parameter.maxContourSize : ℚ) ≥ c.contourArea ∧
          (s.parameter.minContourSize : ℚ) ≤ c.contourArea
      · rw [if_pos ha]
        cases hn : c.annotate with
        | some t => exact ⟨[], by simp, by simp, by simp⟩
        | none =>
          simp only
          by_cases hb : c.boundingRect.width ≥ s.widthPix ∧ c.boundingRect.height > s.heightPix
          · rw [if_pos hb]
            obtain ⟨added, h1, h2, h3⟩ := ih (acc.1 + 1, acc.2 ++ [c.boundingRect])
            refine ⟨c.boundingRect :: added, ?_, ?_, ?_⟩
            · rw [h1]
              simp
            · rw [h2]
              simp only [List.length_cons]
              push_cast
              omega
            · intro r hr
              rcases List.mem_cons.mp hr with rfl | hr
              · exact ⟨c, List.mem_cons_self _ _, rfl, ha.1, ha.2, hb.1, hb.2⟩
              · obtain ⟨c1, hc1, hrest⟩ := h3 r hr
                exact ⟨c1, List.mem_cons_of_mem _ hc1, hrest⟩
          · rw [if_neg hb]
            obtain ⟨added, h1, h2, h3⟩ := ih acc
            refine ⟨added, h1, h2, ?_⟩
            intro r hr
            obtain ⟨c1, hc1, hrest⟩ := h3 r hr
            exact ⟨c1, List.mem_cons_of_mem _ hc1, hrest⟩
      · rw [if_neg ha]
        obtain ⟨added, h1, h2, h3⟩ := ih acc
        refine ⟨added, h1, h2, ?_⟩
        intro r hr
        obtain ⟨c1, hc1, hrest⟩ := h3 r hr
        exact ⟨c1, List.mem_cons_of_mem _ hc1, hrest⟩

theorem colorDetect_spec (findContours : List ColorRange → Except Thrown (List Contour))
    (s : ColorInRangeDetection) (noOfObject : Int) (boundingBox : List Rect) :
    ∃ added : List Rect,
      (ColorInRangeDetection.detect findContours s noOfObject boundingBox).2.2.2
        = boundingBox ++ added ∧
      (ColorInRangeDetection.detect findContours s noOfObject boundingBox).2.2.1
        = noOfObject + (added.length : Int) := by
  unfold ColorInRangeDetection.detect
  cases hf : findContours s.parameter.colorRanges with
  | error t => exact ⟨[], by simp, by simp⟩
  | ok contours =>
    simp only
    obtain ⟨added, h1, h2, _⟩ := colorLoop_spec s contours (noOfObject, boundingBox)
    refine ⟨added, ?_, ?_⟩
    · split <;> exact h1
    · split <;> exact h2

/-- C21: whenever `Yolo::detect` returns (partitioning on or off, any backend
output), the vector under each class `j` is the one before the call followed,
for the visited boxes in order, by one entry for each box with
`0 ≤ j < noOfClass` and `prob[j] > thresh`: an element is in it iff it was
there before or is the entry of such a box.  Hence, starting from an empty
`objectInfoList`, every class with an entry lies in `0, …, noOfClass - 1`, with
class count 3 in `{0, 1, 2}`; and this is the case for a fresh detector
configured successfully with a class-names file of the three lines `a`, `b`,
`c`. -/
theorem C21_entries_only_under_valid_classes (w : World) (s : Yolo) (cols rows : Int)
    (m : ObjectInfoList) (c : Int) (ret : Bool) (s1 : Yolo) (m1 : ObjectInfoList) (c1 : Int)
    (h : Yolo.detect w s cols rows m c = some (ret, s1, m1, c1)) :
    (∀ j, m1 j = m j ++ (Yolo.visited w s cols rows).filterMap
        (Yolo.entryFor s.thresh s.noOfClass j)) ∧
    (∀ j e, e ∈ m1 j ↔ (e ∈ m j ∨ ∃ rd ∈ Yolo.visited w s cols rows,
        (0 ≤ j ∧ j < s.noOfClass ∧ rd.2.prob j.toNat > s.thresh) ∧
          e = (rd.1, rd.2.prob j.toNat))) ∧
    ((∀ j, m j = []) → ∀ j, m1 j ≠ [] → 0 ≤ j ∧ j < s.noOfClass) ∧
    ((∀ j, m j = []) → s.noOfClass = 3 → ∀ j, m1 j ≠ [] → j = 0 ∨ j = 1 ∨ j = 2) ∧
    (∀ (parameters : DetectionConfigurationParameter)
        (partitionPara : PartitionDetectionConfigurationParameter)
        (ret2 : Bool) (s2 : Yolo) (m2 : ObjectInfoList) (c2 : Int),
      w.getlines parameters.nameFile = ["a", "b", "c"] →
      (Yolo.configuration w Yolo.construct parameters partitionPara).1 = true →
      Yolo.detect w (Yolo.configuration w Yolo.construct parameters partitionPara).2
          cols rows ObjectInfoList.empty c = some (ret2, s2, m2, c2) →
      ∀ j, m2 j ≠ [] → j = 0 ∨ j = 1 ∨ j = 2) := by
  obtain ⟨hm, _⟩ := detect_spec w s cols rows m c h
  have hrange : (∀ j, m j = []) → ∀ j, m1 j ≠ [] → 0 ≤ j ∧ j < s.noOfClass := by
    intro hempty j hj
    by_contra hout
    apply hj
    rw [hm j, hempty j, filterMap_entryFor_outside _ hout]
    rfl
  refine ⟨hm, ?_, hrange, ?_, ?_⟩
  · intro j e
    rw [hm j, List.mem_append, List.mem_filterMap]
    constructor
    · rintro (he | ⟨rd, hrd, he⟩)
      · exact Or.inl he
      · right
        refine ⟨rd, hrd, ?_⟩
        unfold Yolo.entryFor at he
        split at he
        · rename_i hc
          simp only [Option.some.injEq] at he
          exact ⟨hc, he.symm⟩
        · cases he
    · rintro (he | ⟨rd, hrd, hc, he⟩)
      · exact Or.inl he
      · right
        refine ⟨rd, hrd, ?_⟩
        unfold Yolo.entryFor
        rw [if_pos hc, he]
  · intro hempty h3 j hj
    have := hrange hempty j hj
    omega
  · intro parameters partitionPara ret2 s2 m2 c2 hl hcfg hdet j hj
    obtain ⟨hm2, _⟩ := detect_spec w _ cols rows ObjectInfoList.empty c hdet
    have hn := yolo_configuration_noOfClass w Yolo.construct parameters partitionPara hcfg
    rw [hl] at hn
    have hn3 : (Yolo.configuration w Yolo.construct parameters partitionPara).2.noOfClass
        = 3 := by
      rw [hn]
      rfl
    have hin : 0 ≤ j ∧ j < 3 := by
      by_contra hout
      apply hj
      rw [hm2 j, filterMap_entryFor_outside _ (by rw [hn3]; exact hout)]
      rfl
    omega

theorem C21_entries_only_under_valid_classes_witness :
    ∃ s1 m1 c1,
      Yolo.detect worldWithBoxes
          (Yolo.configuration worldWithBoxes Yolo.construct exampleParameters noPartition).2
          200 100 ObjectInfoList.empty 0 = some (true, s1, m1, c1) ∧
      ∀ j, m1 j ≠ [] → 0 ≤ j ∧
        j < (Yolo.configuration worldWithBoxes Yolo.construct exampleParameters
              noPartition).2.noOfClass := by
  refine ⟨_, _, _, rfl, ?_⟩
  exact (C21_entries_only_under_valid_classes worldWithBoxes
    (Yolo.configuration worldWithBoxes Yolo.construct exampleParameters noPartition).2
    200 100 ObjectInfoList.empty 0 true _ _ _ rfl).2.2.1 (fun _ => rfl)

/-- C22: whenever `Yolo::detect` returns (in particular when it returns `true`,
partitioned or not), `objectCount` has grown by exactly the number of entries
appended to `objectInfoList` (counted over the classes `0, …, noOfClass - 1`,
no other class being touched); so if `objectCount` equalled the number of
entries on entry, it does on return, and from an empty map and count 0 the
count returned is the number of entries in the map.  Likewise
`ColorInRangeDetection::detect` appends rectangles to `boundingBox` and adds
their number to `noOfObject`, so equality of count and length is kept. -/
theorem C22_count_matches_appended_entries (w : World) (s : Yolo) (cols rows : Int)
    (m : ObjectInfoList) (c : Int) (ret : Bool) (s1 : Yolo) (m1 : ObjectInfoList) (c1 : Int)
    (findContours : List ColorRange → Except Thrown (List Contour))
    (cd : ColorInRangeDetection) (noOfObject : Int) (boundingBox : List Rect)
    (h : Yolo.detect w s cols rows m c = some (ret, s1, m1, c1)) :
    (c1 - c = (entriesIn m1 s.noOfClass : Int) - (entriesIn m s.noOfClass : Int)) ∧
    (∀ j, ¬ (0 ≤ j ∧ j < s.noOfClass) → m1 j = m j) ∧
    (c = (entriesIn m s.noOfClass : Int) → c1 = (entriesIn m1 s.noOfClass : Int)) ∧
    ((∀ j, m j = []) → c = 0 →
      c1 = (entriesIn m1 s.noOfClass : Int) ∧
        ∀ j, ¬ (0 ≤ j ∧ j < s.noOfClass) → m1 j = []) ∧
    (∃ added : List Rect,
      (ColorInRangeDetection.detect findContours cd noOfObject boundingBox).2.2.2
        = boundingBox ++ added ∧
      (ColorInRangeDetection.detect findContours cd noOfObject boundingBox).2.2.1
        = noOfObject + (added.length : Int)) ∧
    (noOfObject = (boundingBox.length : Int) →
      (ColorInRangeDetection.detect findContours cd noOfObject boundingBox).2.2.1
        = ((ColorInRangeDetection.detect findContours cd noOfObject
            boundingBox).2.2.2.length : Int)) := by
  obtain ⟨hm, hc⟩ := detect_spec w s cols rows m c h
  have he := entriesIn_of_appended s.thresh s.noOfClass _ m m1 hm
  have hout : ∀ j, ¬ (0 ≤ j ∧ j < s.noOfClass) → m1 j = m j := by
    intro j hj
    rw [hm j, filterMap_entryFor_outside _ hj, List.append_nil]
  obtain ⟨added, ha1, ha2⟩ := colorDetect_spec findContours cd noOfObject boundingBox
  refine ⟨?_, hout, ?_, ?_, ⟨added, ha1, ha2⟩, ?_⟩
  · rw [hc, he]
    push_cast
    omega
  · intro h0
    rw [hc, he, h0]
    push_cast
    omega
  · intro hempty h0
    have hz : entriesIn m s.noOfClass = 0 := by
      unfold entriesIn
      simp [hempty]
    refine ⟨?_, ?_⟩
    · rw [hc, he, h0, hz]
      push_cast
      omega
    · intro j hj
      rw [hout j hj, hempty j]
  · intro h0
    rw [ha1, ha2, h0, List.length_append]
    push_cast
    omega

theorem C22_count_matches_appended_entries_witness :
    ∃ s1 m1 c1,
      Yolo.detect worldWithBoxes
          (Yolo.configuration worldWithBoxes Yolo.construct exampleParameters noPartition).2
          200 100 ObjectInfoList.empty 0 = some (true, s1, m1, c1) ∧
      c1 = (entriesIn m1
          (Yolo.configuration worldWithBoxes Yolo.construct exampleParameters
            noPartition).2.noOfClass : Int) := by
  refine ⟨_, _, _, rfl, ?_⟩
  exact ((C22_count_matches_appended_entries worldWithBoxes
    (Yolo.configuration worldWithBoxes Yolo.construct exampleParameters noPartition).2
    200 100 ObjectInfoList.empty 0 true _ _ _ (fun _ => Except.ok []) exampleColorDetector 0 []
    rfl).2.2.2.1 (fun _ => rfl) rfl).1

/-- C23 (as amended): for every colour parameter set, partition parameter set,
height and width, `ColorInRangeDetection::configuration` returns `true`;
afterwards the detector holds the supplied colour parameters, height and
width, its `errorDetails` are as before, and nothing in it depends on the
partition parameters: any other partition parameter set gives the same
result. -/
theorem C23_color_configuration_stores_parameters (s : ColorInRangeDetection)
    (parameters : ColorConfigurationParameters)
    (partitionParameter : PartitionDetectionConfigurationParameter) (height width : Int) :
    (ColorInRangeDetection.configuration s parameters partitionParameter height width).1
      = true ∧
    (ColorInRangeDetection.configuration s parameters partitionParameter height width).2
      = { parameter := parameters, heightPix := height, widthPix := width
          errorDetails := s.errorDetails } ∧
    (∀ other : PartitionDetectionConfigurationParameter,
      ColorInRangeDetection.configuration s parameters other height width
        = ColorInRangeDetection.configuration s parameters partitionParameter height width) :=
  ⟨rfl, rfl, fun _ => rfl⟩

/-- C23, counterexample to the claim as stated: configuring the colour detector
with partitioning on (3 strips, strips 0 and 2 requested) and with partitioning
off gives the very same detector, so the detector does not hold the supplied
partition parameters. -/
theorem C23_partition_parameters_not_stored :
    ({ numberOfPartitions := 3, partitionToDetect := [0, 2], partitionFlag := true }
        : PartitionDetectionConfigurationParameter) ≠ noPartition ∧
    ColorInRangeDetection.configuration exampleColorDetector
        { colorRanges := [], minContourSize := 5, maxContourSize := 50 }
        { numberOfPartitions := 3, partitionToDetect := [0, 2], partitionFlag := true } 4 6
      = ColorInRangeDetection.configuration exampleColorDetector
        { colorRanges := [], minContourSize := 5, maxContourSize := 50 } noPartition 4 6 :=
  ⟨by decide, rfl⟩

/-- C25: for every capacity `C` (`2 ≤ C`, a `uint32_t` value), every state
reached from a fresh buffer by any sequence of `push` and `pop` calls has
`readIndex < C`, `writeIndex < C` and `(writeIndex - readIndex) mod C ≤ C - 1`
with `C - 1 = capacity()`; `index + 1` stays below `2 ^ 32` for both indices
(the 32-bit sum does not wrap), the divisor `capacity_ = C` is not 0, and
`isEmpty()` and `isFull()` are not both `true`. -/
theorem C25_reachable_state_invariant (tr : ElemTraits T) (C : Nat) (cb : Option (T → T))
    (calls : List (Call T)) (b : SPSCBuffer T) (obs : List (Obs T))
    (h2 : 2 ≤ C) (h32 : C < 2 ^ 32)
    (hr : run tr (SPSCBuffer.construct C cb) calls = some (b, obs)) :
    b.readIndex_ < C ∧ b.writeIndex_ < C ∧
    ((b.writeIndex_ : Int) - (b.readIndex_ : Int)) % (C : Int) ≤ (C : Int) - 1 ∧
    b.capacity = C - 1 ∧
    b.capacity_ = C ∧ b.capacity_ ≠ 0 ∧
    b.readIndex_ + 1 < 2 ^ 32 ∧ b.writeIndex_ + 1 < 2 ^ 32 ∧
    u32 (b.readIndex_ + 1) = b.readIndex_ + 1 ∧
    u32 (b.writeIndex_ + 1) = b.writeIndex_ + 1 ∧
    ¬ (b.isEmpty = true ∧ b.isFull = true) := by
  obtain ⟨h, _, hc, _⟩ := run_reaches tr h2 h32 hr
  have hr1 := h.r_lt
  have hw1 := h.w_lt
  have hq := h.q_lt
  have hcount := h.count
  rw [hc] at hr1 hw1 hq hcount
  refine ⟨hr1, hw1, ?_, ?_, hc, by omega, by omega, by omega, ?_, ?_, ?_⟩
  · rw [hcount]
    omega
  · rw [capacity_eq (by omega) (by omega), hc]
  · exact u32_succ h32 hr1
  · exact u32_succ h32 hw1
  · rintro ⟨he, hf⟩
    rw [h.isEmpty_eq, List.isEmpty_iff] at he
    rw [h.isFull_eq, decide_eq_true_iff, he, hc] at hf
    simp only [List.length_nil] at hf
    omega

theorem C25_reachable_state_invariant_witness :
    (2 ≤ 3 ∧ 3 < 2 ^ 32) ∧
    ¬ (SPSCBuffer.isEmpty
          { readIndex_ := 1, writeIndex_ := 0, capacity_ := 3
            buffer_ := [some 11, some 2, some 3]
            callbackFunctionToCallWhilePop := some (fun x : Nat => x + 10) } = true ∧
        SPSCBuffer.isFull
          { readIndex_ := 1, writeIndex_ := 0, capacity_ := 3
            buffer_ := [some 11, some 2, some 3]
            callbackFunctionToCallWhilePop := some (fun x : Nat => x + 10) } = true) :=
  ⟨⟨by decide, by decide⟩,
    (C25_reachable_state_invariant natTraits 3 (some (fun x => x + 10))
      [Call.push 1, Call.push 2, Call.pop, Call.push 3, Call.push 4]
      { readIndex_ := 1, writeIndex_ := 0, capacity_ := 3
        buffer_ := [some 11, some 2, some 3]
        callbackFunctionToCallWhilePop := some (fun x => x + 10) }
      [⟨Call.push 1, true, [], none⟩, ⟨Call.push 2, true, [], none⟩,
        ⟨Call.pop, true, [Event.callback 1], none⟩, ⟨Call.push 3, true, [], none⟩,
        ⟨Call.push 4, false, [], none⟩]
      (by decide) (by decide) (by rfl)).2.2.2.2.2.2.2.2.2.2⟩

/-- C26: in the partition branch of `Yolo::detect`, for an image `W` columns
wide and `rows` high, a partition count `N` with `1 ≤ N ≤ W` and a strip
index `0 ≤ p < N`: the divisor `N` is not 0, the strip width `W / N` is the
floor quotient and at least 1, `startX = p * (W / N) ≥ 0`, the clamp of `endX`
does not fire (`(p + 1) * (W / N) ≤ W`), the region of interest has
`x = startX`, `y = 0`, `width = W / N`, `height = rows`, and it lies inside the
image: `0 ≤ x`, `0 ≤ width`, `x + width ≤ W`, `0 ≤ y`, `y + height ≤ rows`
(and `0 ≤ height` as the image height is not negative). -/
theorem C26_strip_region_inside_image (W N p rows : Int)
    (hN : 1 ≤ N) (hNW : N ≤ W) (hp0 : 0 ≤ p) (hpN : p < N) :
    N ≠ 0 ∧
    Yolo.desiredWidth W N = W / N ∧
    1 ≤ Yolo.desiredWidth W N ∧
    0 ≤ Yolo.startX p (Yolo.desiredWidth W N) ∧
    ¬ ((p + 1) * Yolo.desiredWidth W N > W) ∧
    Yolo.endX p (Yolo.desiredWidth W N) W = (p + 1) * Yolo.desiredWidth W N ∧
    Yolo.roiRect p (Yolo.desiredWidth W N) W rows
      = { x := p * Yolo.desiredWidth W N, y := 0, width := Yolo.desiredWidth W N
          height := rows } ∧
    (0 ≤ (Yolo.roiRect p (Yolo.desiredWidth W N) W rows).x ∧
      0 ≤ (Yolo.roiRect p (Yolo.desiredWidth W N) W rows).width ∧
      (Yolo.roiRect p (Yolo.desiredWidth W N) W rows).x
        + (Yolo.roiRect p (Yolo.desiredWidth W N) W rows).width ≤ W ∧
      0 ≤ (Yolo.roiRect p (Yolo.desiredWidth W N) W rows).y ∧
      (0 ≤ rows → 0 ≤ (Yolo.roiRect p (Yolo.desiredWidth W N) W rows).height) ∧
      (Yolo.roiRect p (Yolo.desiredWidth W N) W rows).y
        + (Yolo.roiRect p (Yolo.desiredWidth W N) W rows).height ≤ rows) := by
  have hW : 0 ≤ W := by omega
  obtain ⟨h0, h1, h2⟩ := desiredWidth_bounds hW hN
  have hd := desiredWidth_eq_ediv hW (by omega : (0 : Int) ≤ N)
  have hend := endX_eq_of_lt hW hN hpN
  have hpos : 1 ≤ Yolo.desiredWidth W N := by
    by_contra hlt
    have hz : Yolo.desiredWidth W N = 0 := by omega
    rw [hz] at h2
    omega
  have hs0 : 0 ≤ p * Yolo.desiredWidth W N := Int.mul_nonneg hp0 h0
  have hle : (p + 1) * Yolo.desiredWidth W N ≤ N * Yolo.desiredWidth W N :=
    Int.mul_le_mul_of_nonneg_right (by omega) h0
  have hroi : Yolo.roiRect p (Yolo.desiredWidth W N) W rows
      = { x := p * Yolo.desiredWidth W N, y := 0, width := Yolo.desiredWidth W N
          height := rows } := by
    unfold Yolo.roiRect
    rw [hend]
    unfold Yolo.startX
    congr 1
    rw [Int.add_mul]
    omega
  refine ⟨by omega, hd, hpos, hs0, by omega, hend, hroi, ?_⟩
  rw [hroi]
  simp only
  have hexp : (p + 1) * Yolo.desiredWidth W N
      = p * Yolo.desiredWidth W N + Yolo.desiredWidth W N := by
    rw [Int.add_mul]
    omega
  refine ⟨hs0, by omega, by omega, by omega, fun hrows => hrows, by omega⟩

theorem C26_strip_region_inside_image_witness :
    ((1 : Int) ≤ 2 ∧ (2 : Int) ≤ 200 ∧ (0 : Int) ≤ 1 ∧ (1 : Int) < 2) ∧
    Yolo.roiRect 1 (Yolo.desiredWidth 200 2) 200 100
      = { x := 1 * Yolo.desiredWidth 200 2, y := 0, width := Yolo.desiredWidth 200 2
          height := 100 } :=
  ⟨⟨by decide, by decide, by decide, by decide⟩,
    (C26_strip_region_inside_image 200 2 1 100 (by decide) (by decide) (by decide)
      (by decide)).2.2.2.2.2.2.1⟩

end NetraVision
